import Mathlib

/-!
Shallow embedding of the Omerta telegram-bot game engine
(`src/simple_bot.py`, `src/game/core/state.py`, `src/bot/keyboards.py`).

Python dictionaries holding game and player data are modelled as Lean
structures; Python lists as `List`; Python sets as `List` with membership;
`list.pop()` (which removes the LAST element) as `dropLast`/`getLast`;
`random.shuffle` outcomes are passed in as explicit lists guarded by a
decidable permutation check.  Player ids (Telegram ints or synthetic AI
strings) are abstracted to `Nat` labels except where the int/str
distinction is itself under scrutiny (the blocked-cards claims), where a
dedicated `PyKey` type mirrors Python's mixed-type dictionary keys.
-/

namespace OmertaBot

/-- Constants from `src/game/core/state.py` lines 23-26. -/
def OMERTA_THRESHOLD : Nat := 7
def OMERTA_PENALTY : Nat := 20
def HAND_CARDS_COUNT : Nat := 4
def SAFE_CARDS_COUNT : Nat := 4

/-- A card (`create_deck` builds dicts with `type` = "bottle" or "character").
Bottle cards carry their value (points = value); character cards carry a
name and a point value. -/
inductive Card
  | bottle (value : Nat)
  | character (name : String) (points : Nat)
deriving DecidableEq, Inhabited

/-- `card.get('points', card.get('value', 0))` — for bottles the points equal
the value; for characters the stored points. -/
def Card.points : Card → Nat
  | .bottle v => v
  | .character _ p => p

/-- `card.get('type') == 'bottle'`. -/
def Card.isBottle : Card → Bool
  | .bottle _ => true
  | .character _ _ => false

/-- `card.get('value')` for bottles (characters have no value key). -/
def Card.value? : Card → Option Nat
  | .bottle v => some v
  | .character _ _ => none

/-- `card.get('name')`. -/
def Card.cardName : Card → String
  | .bottle v => "Bottle " ++ toString v
  | .character n _ => n

/-- `CHARACTER_CARDS` from `src/game/core/state.py` lines 28-40
(name, points); ability text and timers are irrelevant to the claims. -/
def CHARACTER_CARDS : List (String × Nat) :=
  [("The Lady", 15), ("The Mole", 15), ("The Gangster", 15),
   ("The Snitch", 20), ("The Driver", 20), ("The Safecracker", 15),
   ("The Killer", 15), ("The Witness", 10), ("The Alibi", 0),
   ("The Mamma", 15), ("Police Patrol", 15)]

/-- `GameState.create_deck` (`state.py` lines 218-234) before the final
`random.shuffle`: four bottles of each value 1..10, then each character
card 3 times for The Alibi / The Witness and 2 times otherwise. -/
def create_deck : List Card :=
  ((List.range 10).flatMap fun i => List.replicate 4 (Card.bottle (i + 1)))
  ++ (CHARACTER_CARDS.flatMap fun ct =>
       let count := if ct.1 = "The Alibi" ∨ ct.1 = "The Witness" then 3 else 2
       List.replicate count (Card.character ct.1 ct.2))

/-- `GameState.calculate_score_for_hand` (`state.py` lines 384-386):
sum of `card.get('points', card.get('value', 0))`. -/
def calculate_score_for_hand (hand : List Card) : Nat :=
  (hand.map Card.points).sum

/-- Player ids: Telegram ints and synthetic AI string ids abstracted to
labels (equality is the only operation the engine performs on them,
outside the blocked-cards dictionaries modelled separately). -/
abbrev PlayerId := Nat

/-- `GAME_PHASES` (`state.py` lines 12-20). -/
inductive Phase
  | setup | joining | gangster_assignment | wait_for_al_capone_continue
  | dealing_cards | viewing | playing
  | character_ability_targeting | character_ability_action
  | bottle_matching_window | omerta_called | completed
deriving DecidableEq

/-- `PLAYER_STATES` (`state.py` line 21). -/
inductive PStatus
  | active | inactive | skipped_turn
deriving DecidableEq

/-- One entry of `game['players']`/`game['ai_players']` (fields the claims
need; `add_player_to_game` / `add_ai_player_to_game` in `state.py`). -/
structure Player where
  pid : PlayerId
  hand : List Card
  status : PStatus
  is_ai : Bool
  score_this_round : Nat := 0
deriving DecidableEq

/-- The part of an ability context shared by snapshots
(`initiate_character_ability`, `simple_bot.py` lines 2178-2182, plus the
keys the per-ability flows add: `gangster_swap_type`, `p1_id`, ...). -/
structure AbilityCtxCore where
  player_id : PlayerId
  card_name : String
  step : String
  timeout_job_name : Option String := none
  targets_chosen : List PlayerId := []
  cards_selected_indices : List Nat := []
  gangster_swap_type : Option String := none
  p1_id : Option PlayerId := none
  p1_card_idx : Option Nat := none
  p2_id : Option PlayerId := none
  p2_card_idx : Option Nat := none
deriving DecidableEq

/-- `game['active_ability_context']`: the live context carries, for a
Killer counter in progress, a deep-copied snapshot of the suspended
context (`check_for_killer_reaction`, lines 1618-1626); `sig` models the
CPython object identity `id(ctx)` captured by scheduled timers. -/
structure ActiveAbilityCtx extends AbilityCtxCore where
  original_ability_context_snapshot : Option AbilityCtxCore := none
  sig : Nat := 0
deriving DecidableEq

/-- `game['bottle_match_context']` (`initiate_bottle_matching_window`,
lines 1174-1182); `failed_matchers` is a Python set, modelled as a list
with membership; `sig` models `id(ctx)`. -/
structure BottleCtx where
  discarded_card_value : Nat
  fastest_matcher_id : Option PlayerId := none
  timeout_job_name : Option String := none
  triggering_player_id : Option PlayerId := none
  failed_matchers : List PlayerId := []
  sig : Nat := 0
deriving DecidableEq

/-- The per-chat game dict (`GameState.add_game`, `state.py` lines
118-128), restricted to the fields the claims touch.  `players` holds
humans and AI in one list (the code concatenates
`game['players'] + game['ai_players']` wherever it iterates them). -/
structure Game where
  phase : Phase
  players : List Player
  deck : List Card
  discard_pile : List Card
  safe : List Card
  active_ability_context : Option ActiveAbilityCtx := none
  bottle_match_context : Option BottleCtx := none
  bottle_match_context_just_ended : Bool := false
  current_player_id : Option PlayerId := none
  omerta_caller_id : Option PlayerId := none
  final_scores_list : Option (List (PlayerId × Nat × Bool)) := none
deriving DecidableEq

/-- `get_player_by_id` (`state.py` lines 354-360): first entry in
players (then ai_players) with the id; here we return its hand. -/
def getHand? : List Player → PlayerId → Option (List Card)
  | [], _ => none
  | p :: ps, pid => if p.pid = pid then some p.hand else getHand? ps pid

/-- Mutating `player['hand']` through the object returned by
`get_player_by_id`: apply `f` to the first matching player's hand. -/
def updateFirstHand : List Player → PlayerId → (List Card → List Card) → List Player
  | [], _, _ => []
  | p :: ps, pid, f =>
      if p.pid = pid then { p with hand := f p.hand } :: ps
      else p :: updateFirstHand ps pid f

/-- Outcome of one bottle-match attempt: which message/return branch of
`handle_bottle_match_attempt` executed. -/
inductive AttemptOutcome
  | rejected | success | failure
deriving DecidableEq

/-- `handle_bottle_match_attempt` (`simple_bot.py` lines 958-1095).
Guards in source order: missing player / missing context / wrong phase
(line 985), winner already recorded (992), attempting player already in
`failed_matchers` (999), invalid card index (1006).  A successful match
(1017-1053) records the matcher, moves the card from hand to discard,
clears the bottle context, flags `bottle_match_context_just_ended` and
resets `current_player_id` to the original discarder.  A failed match
(1056-1095) adds the player to `failed_matchers` and pops one penalty
card from the deck into the hand when the deck is non-empty.  The
follow-up `advance_turn_or_continue_sequence` call after a success
relocates no cards and never recreates a bottle context, so it is not
part of this transition. -/
def handle_bottle_match_attempt (g : Game) (player_id : PlayerId)
    (card_idx_to_discard : Nat) : Game × AttemptOutcome :=
  match getHand? g.players player_id, g.bottle_match_context with
  | some hand, some ctx =>
    if g.phase ≠ Phase.bottle_matching_window then (g, .rejected)
    else if ctx.fastest_matcher_id.isSome then (g, .rejected)
    else if player_id ∈ ctx.failed_matchers then (g, .rejected)
    else if hlt : card_idx_to_discard < hand.length then
      let card_to_match_with := hand.get ⟨card_idx_to_discard, hlt⟩
      if card_to_match_with.isBottle ∧
         card_to_match_with.value? = some ctx.discarded_card_value then
        ({ g with
            players := updateFirstHand g.players player_id
                         (fun hd => hd.eraseIdx card_idx_to_discard),
            discard_pile := g.discard_pile ++ [card_to_match_with],
            bottle_match_context := none,
            bottle_match_context_just_ended := true,
            current_player_id := ctx.triggering_player_id }, .success)
      else
        let ctx' := { ctx with failed_matchers := ctx.failed_matchers ++ [player_id] }
        if hd : g.deck = [] then
          ({ g with bottle_match_context := some ctx' }, .failure)
        else
          let penalty_card := g.deck.getLast hd
          ({ g with
              deck := g.deck.dropLast,
              players := updateFirstHand g.players player_id
                           (fun hd => hd ++ [penalty_card]),
              bottle_match_context := some ctx' }, .failure)
    else (g, .rejected)
  | _, _ => (g, .rejected)

/-- A sequence of bottle-match attempts inside one window, in arrival
order (the bot process handles callbacks and AI jobs one at a time). -/
def runAttempts : Game → List (PlayerId × Nat) → Game × List AttemptOutcome
  | g, [] => (g, [])
  | g, (p, i) :: rest =>
      let r := handle_bottle_match_attempt g p i
      let rr := runAttempts r.1 rest
      (rr.1, r.2 :: rr.2)

/-- First element of `sorted(l, key=f)` for Python's stable sort: the
earliest element attaining the minimal key (later elements replace the
candidate only on a strictly smaller key).  Models
`sorted(eligible_players, key=lambda p: p.get('score_this_round', 999))[0]`
at `simple_bot.py` lines 586-587 and 606-607. -/
def stableMinBy (f : α → Nat) : List α → Option α
  | [] => none
  | a :: as => some (as.foldl (fun b x => if f x < f b then x else b) a)

/-- `score_this_round` assignment in `handle_omerta_call`
(lines 560-574): every participant's score is their hand value, then
participants that are not ACTIVE and are not the caller are overwritten
with 999. -/
def scoreOf (caller : Option PlayerId) (p : Player) : Nat :=
  if p.status ≠ PStatus.active ∧ some p.pid ≠ caller then 999
  else calculate_score_for_hand p.hand

/-- `active_players_for_scoring` / `eligible_for_win` filter
(lines 552 and 581): participants whose status is ACTIVE or whose id is
the caller's (both lists apply the same predicate). -/
def eligibleOf (players : List Player) (caller : Option PlayerId) : List Player :=
  players.filter (fun p => p.status = PStatus.active ∨ some p.pid = caller)

/-- Result of the winner-determination block of `handle_omerta_call`
(lines 578-618): the rescored participant list, the winner's id, and
whether the caller-penalty branch ran. -/
structure SettleResult where
  players : List Player
  winner : Option PlayerId
  callerPenalized : Bool
deriving DecidableEq

/-- The scoring pass of `handle_omerta_call` (lines 560-576): all
participants rescored via `scoreOf`. -/
def omertaScored (players : List Player) (caller : Option PlayerId) : List Player :=
  players.map fun p => { p with score_this_round := scoreOf caller p }

/-- The caller-penalty mutation (line 601):
`caller_player_obj['score_this_round'] = caller_score + OMERTA_PENALTY`,
applied through the shared player object. -/
def penalizeCaller (cid : PlayerId) (l : List Player) : List Player :=
  l.map fun p =>
    if p.pid = cid then
      { p with score_this_round := p.score_this_round + OMERTA_PENALTY }
    else p

/-- Winner determination of `handle_omerta_call` (lines 578-618).
With an eligible caller: the caller wins iff they are
`sorted(eligible, key=score)[0]` and their score is ≤ `OMERTA_THRESHOLD`
(line 591); otherwise `OMERTA_PENALTY` is added to the caller's score
(line 601) and the eligible list, re-sorted with the penalty applied,
yields the winner (lines 606-607).  With no eligible caller (system
forced), the lowest scorer wins with no penalty (lines 610-612). -/
def settle (players : List Player) (caller : Option PlayerId) : SettleResult :=
  let scored := omertaScored players caller
  let eligible := eligibleOf scored caller
  match caller with
  | some cid =>
    if eligible.any (fun p => p.pid = cid) then
      let caller_score :=
        ((scored.find? (fun p => p.pid = cid)).map Player.score_this_round).getD 999
      match stableMinBy Player.score_this_round eligible with
      | some actual_lowest_scorer =>
        if actual_lowest_scorer.pid = cid ∧ caller_score ≤ OMERTA_THRESHOLD then
          { players := scored, winner := some cid, callerPenalized := false }
        else
          let scored' := penalizeCaller cid scored
          { players := scored',
            winner := (stableMinBy Player.score_this_round
                        (eligibleOf scored' caller)).map Player.pid,
            callerPenalized := true }
      | none => { players := scored, winner := none, callerPenalized := false }
    else
      { players := scored,
        winner := (stableMinBy Player.score_this_round eligible).map Player.pid,
        callerPenalized := false }
  | none =>
      { players := scored,
        winner := (stableMinBy Player.score_this_round eligible).map Player.pid,
        callerPenalized := false }

/-- `handle_omerta_call` (`simple_bot.py` lines 502-658) as a state
transition.  Re-entry guard at lines 512-515: if the phase is already
OMERTA_CALLED or COMPLETED the call returns with no mutation.  Otherwise
it clears a pending ability / bottle context whose timeout job exists
(lines 517-526), moves the phase to OMERTA_CALLED, records the caller,
rescores and settles the round (the `settle` block above), stores the
final per-participant results (lines 635-649) and ends in COMPLETED
(line 654).  Messaging and the database write are external effects. -/
def handle_omerta_call (g : Game) (caller_id : Option PlayerId) : Game :=
  if g.phase = Phase.omerta_called ∨ g.phase = Phase.completed then g
  else
    let ability_ctx' : Option ActiveAbilityCtx :=
      match g.active_ability_context with
      | some c => if c.timeout_job_name.isSome then none else some c
      | none => none
    let bottle_ctx' : Option BottleCtx :=
      match g.bottle_match_context with
      | some c => if c.timeout_job_name.isSome then none else some c
      | none => none
    let r := settle g.players caller_id
    { g with
        active_ability_context := ability_ctx',
        bottle_match_context := bottle_ctx',
        omerta_caller_id := caller_id,
        players := r.players,
        final_scores_list := some (r.players.map fun p =>
          (p.pid, p.score_this_round, r.winner = some p.pid)),
        phase := Phase.completed }

/-- Character-list test used to model Python string operators: does the
second list start with the first? -/
def charsLead : List Char → List Char → Bool
  | [], _ => true
  | _ :: _, [] => false
  | a :: as, b :: bs => a = b && charsLead as bs

/-- Does the second list contain the first as a contiguous run? -/
def charsHasSub (pat : List Char) : List Char → Bool
  | [] => charsLead pat []
  | l@(_ :: rest) => charsLead pat l || charsHasSub pat rest

/-- Python `pat in s` on strings. -/
def pyIn (pat s : String) : Bool := charsHasSub pat.toList s.toList

/-- Python `s.startswith(pat)`. -/
def pyStarts (s pat : String) : Bool := charsLead pat.toList s.toList

/-- Python `s.endswith(pat)`. -/
def pyEnds (s pat : String) : Bool := charsLead pat.toList.reverse s.toList.reverse

/-- How `resume_original_ability_after_killer_interaction` continues the
suspended ability. -/
inductive ResumeOutcome
  | executed (ability : String)
  | reprompted (newCtx : AbilityCtxCore)
  | fizzled
deriving DecidableEq

/-- `resume_original_ability_after_killer_interaction`
(`simple_bot.py` lines 1464-1581), dispatch on the snapshot.
Branch 1 (line 1517): the step string contains "_confirm_target",
"_confirm_swap" or "_confirmed_block_target" — auto-execute the ability
named in the snapshot when its required selections are present, else the
ability "may fizzle" (lines 1534-1538: context cleared).
Branch 2 (lines 1540-1542): the step ends with "_select_target",
"_select_targets", "_select_own_card" or "_select_opponent_card", or
starts with "gangster_others_select_" — re-prompt the original actor at
that ability's first selection step with cleared selections
(lines 1547-1568) and a freshly scheduled timeout (line 1574).
Final branch (lines 1576-1581): CRITICAL FALLBACK — the context is
cleared and the ability's effect is lost. -/
def resume_original_ability (snap : AbilityCtxCore) : ResumeOutcome :=
  if pyIn "_confirm_target" snap.step ∨ pyIn "_confirm_swap" snap.step ∨
     pyIn "_confirmed_block_target" snap.step then
    if snap.card_name = "The Lady" ∧ snap.targets_chosen ≠ [] then
      .executed "The Lady"
    else if snap.card_name = "The Mamma" ∧ snap.targets_chosen ≠ [] then
      .executed "The Mamma"
    else if snap.card_name = "The Snitch" ∧ snap.targets_chosen ≠ [] then
      .executed "The Snitch"
    else if snap.card_name = "Police Patrol" ∧ snap.targets_chosen ≠ [] ∧
            snap.cards_selected_indices ≠ [] then
      .executed "Police Patrol"
    else if snap.card_name = "The Gangster" ∧ snap.p1_id.isSome ∧
            snap.p1_card_idx.isSome ∧ snap.p2_id.isSome ∧
            snap.p2_card_idx.isSome then
      .executed "The Gangster"
    else .fizzled
  else if pyEnds snap.step "_select_target" ∨ pyEnds snap.step "_select_targets" ∨
          pyEnds snap.step "_select_own_card" ∨
          pyEnds snap.step "_select_opponent_card" ∨
          pyStarts snap.step "gangster_others_select_" then
    if snap.card_name = "The Lady" then
      .reprompted { snap with step := "lady_select_target", targets_chosen := [] }
    else if snap.card_name = "The Mamma" then
      .reprompted { snap with step := "mamma_select_target", targets_chosen := [] }
    else if snap.card_name = "The Snitch" then
      .reprompted { snap with step := "snitch_select_targets", targets_chosen := [] }
    else if snap.card_name = "Police Patrol" then
      .reprompted { snap with
                    step := "police_select_target_player",
                    targets_chosen := [], cards_selected_indices := [] }
    else if snap.card_name = "The Gangster" then
      .reprompted { snap with
                    step := "gangster_select_action_type",
                    gangster_swap_type := none, p1_id := none, p1_card_idx := none,
                    p2_id := none, p2_card_idx := none,
                    targets_chosen := [], cards_selected_indices := [] }
    else .fizzled
  else .fizzled

/-- The (ability, step) pairs at which `check_for_killer_reaction` can
suspend a context: the `step` value each flow assigns to the context
immediately before calling `check_for_killer_reaction`.
Human flows: "lady_confirm_target" (line 3535), "mamma_confirm_target"
(line 3613), "snitch_confirmed_targets" (line 3855),
"police_confirmed_block_target" (line 4030), "gangster_own_confirm_swap"
(lines 4322/4403), "gangster_others_confirm_swap" (line 4632).
AI flows: "lady_confirm_target" (line 2216), "mamma_confirmed_target"
(line 2249), "police_confirmed_block_target" (line 2277),
"snitch_confirmed_targets" (line 2303). -/
def interruptible_confirm_steps : List (String × String) :=
  [("The Lady", "lady_confirm_target"),
   ("The Mamma", "mamma_confirm_target"),
   ("The Mamma", "mamma_confirmed_target"),
   ("The Snitch", "snitch_confirmed_targets"),
   ("Police Patrol", "police_confirmed_block_target"),
   ("The Gangster", "gangster_own_confirm_swap"),
   ("The Gangster", "gangster_others_confirm_swap")]

/-- What a fired timer callback did, beyond its returned state: the
continuation it handed control to (messages aside). -/
inductive JobEffect
  | noop
  | clearedAndResumed (o : ResumeOutcome)
  | clearedAndAdvanced
  | forwardedAttempt (o : AttemptOutcome)
deriving DecidableEq

/-- Applying a resume outcome to the session: branch 1 executes the
effect (every `execute_*` handler ends by clearing the context), branch 2
re-installs the reset context with a fresh timeout job (fresh signature),
and the fallback clears the context. -/
def apply_resume (g : Game) (snap : AbilityCtxCore) (freshSig : Nat) : Game :=
  match resume_original_ability snap with
  | .executed _ => { g with active_ability_context := none }
  | .reprompted c =>
      let ctx' : ActiveAbilityCtx :=
        { toAbilityCtxCore := c, original_ability_context_snapshot := none, sig := freshSig }
      { g with active_ability_context := some ctx' }
  | .fizzled => { g with active_ability_context := none }

/-- `character_ability_timeout_job` (`simple_bot.py` lines 350-388).
The job re-fetches the game (line 354; absent game aborts) and compares
`id(active_ability_context)` with the signature captured at scheduling
(line 360); on mismatch or absent context it returns without mutating.
Otherwise it clears the context (line 381) and either resumes a
snapshotted original ability when the timed-out context was a Killer
decision (lines 377-385) or advances the turn (line 388). -/
def character_ability_timeout_job (g? : Option Game)
    (expected_context_signature : Nat) (freshSig : Nat) : Option Game × JobEffect :=
  match g? with
  | none => (none, .noop)
  | some game =>
    match game.active_ability_context with
    | none => (some game, .noop)
    | some ctx =>
      if ctx.sig ≠ expected_context_signature then (some game, .noop)
      else
        let original_snapshot :=
          if ctx.card_name = "The Killer" then
            ctx.original_ability_context_snapshot
          else none
        let game' := { game with active_ability_context := none }
        match original_snapshot with
        | some snap =>
            (some (apply_resume game' snap freshSig),
             .clearedAndResumed (resume_original_ability snap))
        | none => (some game', .clearedAndAdvanced)

/-- `end_bottle_match_window_job` (`simple_bot.py` lines 1097-1143).
Aborts without mutation when the game is gone, the phase left
BOTTLE_MATCHING_WINDOW, the context is gone, or a captured signature is
present and differs from `id(bottle_match_context)` (lines 1103-1114:
`expected_sig and id(ctx) != expected_sig` — a `None` payload skips the
check, modelled by `Option`).  Otherwise it closes the window: context
cleared, `bottle_match_context_just_ended` set, current player reset to
the discarder when recorded (lines 1131-1139), then turn advancement. -/
def end_bottle_match_window_job (g? : Option Game)
    (expected_bottle_ctx_signature : Option Nat) : Option Game × JobEffect :=
  match g? with
  | none => (none, .noop)
  | some game =>
    match game.bottle_match_context with
    | none => (some game, .noop)
    | some ctx =>
      if game.phase ≠ Phase.bottle_matching_window then (some game, .noop)
      else if expected_bottle_ctx_signature.any (fun e => ctx.sig ≠ e) then
        (some game, .noop)
      else
        (some { game with
                  bottle_match_context := none,
                  bottle_match_context_just_ended := true,
                  current_player_id :=
                    match ctx.triggering_player_id with
                    | some t => some t
                    | none => game.current_player_id },
         .clearedAndAdvanced)

/-- `ai_attempt_bottle_match_job` (`simple_bot.py` lines 333-348).
Aborts without mutation when the game is gone or the phase left the
window (line 338), the context is gone or its identity differs from the
captured signature (line 342), or a winner is already recorded
(line 344); otherwise forwards to `handle_bottle_match_attempt`. -/
def ai_attempt_bottle_match_job (g? : Option Game) (ai_player_id : PlayerId)
    (ai_card_idx_to_match : Nat) (expected_bottle_ctx_signature : Nat) :
    Option Game × JobEffect :=
  match g? with
  | none => (none, .noop)
  | some game =>
    if game.phase ≠ Phase.bottle_matching_window then (some game, .noop)
    else
      match game.bottle_match_context with
      | none => (some game, .noop)
      | some ctx =>
        if ctx.sig ≠ expected_bottle_ctx_signature then (some game, .noop)
        else if ctx.fastest_matcher_id.isSome then (some game, .noop)
        else
          let r := handle_bottle_match_attempt game ai_player_id ai_card_idx_to_match
          (some r.1, .forwardedAttempt r.2)

/-- The deck-empty reshuffle block shared by
`handle_player_action_draw_deck` (lines 1259-1266) and
`handle_ai_player_turn` (lines 735-746): pop the top discard card, turn
the remaining discard pile into the new deck (`random.shuffle`d — the
shuffled order is supplied as `shuffled` and used only when it is a
permutation of the remainder, mirroring that shuffling relocates
nothing), and leave the popped card as the sole discard.  Runs only when
the deck is empty and the discard pile is not. -/
def reshuffle_discard_into_deck (g : Game) (shuffled : List Card) : Game :=
  if hd : g.deck = [] ∧ g.discard_pile ≠ [] then
    let top_discard := g.discard_pile.getLast hd.2
    let rest := g.discard_pile.dropLast
    let deck' := if shuffled.Perm rest then shuffled else rest
    { g with deck := deck', discard_pile := [top_discard] }
  else g

/-- How a turn handler's draw-from-deck phase ended. -/
inductive DeckDrawResult
  | drew (g : Game) (card : Card)
  | offeredAlternatives (g : Game)
  | forcedOmerta (g : Game)
deriving DecidableEq

/-- Deck acquisition of `handle_player_action_draw_deck`
(`simple_bot.py` lines 1259-1283, a human player's turn): an empty deck
triggers the reshuffle; if the deck is STILL empty the handler sends
"Deck empty. Choose another action:" with the remaining turn options and
returns (lines 1267-1280) — no Omerta is forced; otherwise the draw
pops the deck's top card, held for the replacement prompt. -/
def handle_player_action_draw_deck (g : Game) (shuffled : List Card) :
    DeckDrawResult :=
  let g1 := if g.deck = [] then reshuffle_discard_into_deck g shuffled else g
  if he : g1.deck = [] then .offeredAlternatives g1
  else
    let drawn_card := g1.deck.getLast he
    .drew { g1 with deck := g1.deck.dropLast } drawn_card

/-- Deck acquisition of `handle_ai_player_turn` (`simple_bot.py` lines
735-753, an AI player's turn): same reshuffle attempt; if the deck is
still empty afterwards the handler forces an Omerta call attributed to
the AI player with `forced_by_empty_deck=True` (lines 748-751);
otherwise the draw proceeds. -/
def handle_ai_player_turn_draw (g : Game) (ai_player_id : PlayerId)
    (shuffled : List Card) : DeckDrawResult :=
  let g1 := if g.deck = [] then reshuffle_discard_into_deck g shuffled else g
  if he : g1.deck = [] then .forcedOmerta (handle_omerta_call g1 (some ai_player_id))
  else
    let drawn_card := g1.deck.getLast he
    .drew { g1 with deck := g1.deck.dropLast } drawn_card

/-- `process_card_replacement` (`simple_bot.py` lines 1350-1412) fused
with the deck pop of `handle_player_action_draw_deck` (line 1282): the
drawn card replaces the hand card at the chosen index and the old card
goes on the discard pile.  The handlers validate the index against the
hand before mutating (line 1379); an op with an exhausted deck or an
invalid index is not performed. -/
def replace_from_deck (g : Game) (pid : PlayerId) (idx : Nat) : Game :=
  match getHand? g.players pid with
  | none => g
  | some hand =>
    if hd : g.deck = [] then g
    else if idx < hand.length then
      let drawn := g.deck.getLast hd
      let old_card := hand.get! idx
      { g with
          deck := g.deck.dropLast,
          players := updateFirstHand g.players pid (fun h => h.set idx drawn),
          discard_pile := g.discard_pile ++ [old_card] }
    else g

/-- `handle_player_action_draw_discard` (lines 1302-1348) fused with
`process_card_replacement`: the top discard card (legal only when it is
a bottle or The Alibi, line 1320) is taken and the replaced hand card is
appended to the discard pile. -/
def replace_from_discard (g : Game) (pid : PlayerId) (idx : Nat) : Game :=
  match getHand? g.players pid with
  | none => g
  | some hand =>
    if hd : g.discard_pile = [] then g
    else
      let top_discard := g.discard_pile.getLast hd
      if ¬ (top_discard.isBottle ∨ top_discard.cardName = "The Alibi") then g
      else if idx < hand.length then
        let old_card := hand.get! idx
        { g with
            discard_pile := g.discard_pile.dropLast ++ [old_card],
            players := updateFirstHand g.players pid (fun h => h.set idx top_discard) }
      else g

/-- The per-target loop of `execute_the_snitch_ability`
(`simple_bot.py` lines 1779-1803): each target found by id receives the
deck's top card; a missing target is skipped (`continue`); an empty deck
stops the whole loop (`break`, line 1803). -/
def snitch_give_loop : Game → List PlayerId → Game
  | g, [] => g
  | g, t :: rest =>
    match getHand? g.players t with
    | none => snitch_give_loop g rest
    | some _ =>
      if hd : g.deck = [] then g
      else
        let card_to_give := g.deck.getLast hd
        snitch_give_loop
          { g with
              deck := g.deck.dropLast,
              players := updateFirstHand g.players t (fun h => h ++ [card_to_give]) }
          rest

/-- `execute_the_snitch_ability` card movement. -/
def execute_the_snitch_ability (g : Game) (target_player_ids : List PlayerId) :
    Game :=
  snitch_give_loop g target_player_ids

/-- The pop loop of `execute_the_driver_ability` (lines 2004-2019):
indices sorted in reverse, each valid index popped from the live hand;
bottles accumulate for the discard pile, non-bottles accumulate to be
returned.  Returns (remaining hand, discarded bottles, cards to put
back). -/
def driver_pop_loop : List Nat → List Card → List Card × List Card × List Card
  | [], hand => (hand, [], [])
  | idx :: restIdx, hand =>
    if idx < hand.length then
      let card_to_check := hand.get! idx
      let hand' := hand.eraseIdx idx
      let r := driver_pop_loop restIdx hand'
      if card_to_check.isBottle then (r.1, card_to_check :: r.2.1, r.2.2)
      else (r.1, r.2.1, card_to_check :: r.2.2)
    else driver_pop_loop restIdx hand

/-- The penalty loop of `execute_the_driver_ability` (lines 2030-2038):
one deck card per returned non-bottle, stopping when the deck runs out. -/
def driver_penalty_loop : Nat → Game → PlayerId → Game
  | 0, g, _ => g
  | n + 1, g, pid =>
    if hd : g.deck = [] then g
    else
      let penalty_card := g.deck.getLast hd
      driver_penalty_loop n
        { g with
            deck := g.deck.dropLast,
            players := updateFirstHand g.players pid (fun h => h ++ [penalty_card]) }
        pid

/-- `execute_the_driver_ability` (`simple_bot.py` lines 1967-2066):
pop the chosen indices (reverse-sorted, lines 2003-2004), append the
discarded bottles to the pile (line 2011), extend the hand with the
returned non-bottles and shuffle it (lines 2022-2025; the shuffled order
is supplied and used only when it permutes the extended hand), then draw
one penalty card per non-bottle while the deck lasts. -/
def execute_the_driver_ability (g : Game) (pid : PlayerId)
    (card_indices_to_discard : List Nat) (shuffled : List Card) : Game :=
  match getHand? g.players pid with
  | none => g
  | some hand =>
    let sortedIdx := (card_indices_to_discard.mergeSort (fun a b => b ≤ a))
    let r := driver_pop_loop sortedIdx hand
    let cards_to_put_back := r.2.2
    let hand1 := r.1 ++ cards_to_put_back
    let hand2 :=
      if cards_to_put_back ≠ [] ∧ shuffled.Perm hand1 then shuffled else hand1
    let g1 := { g with
        players := updateFirstHand g.players pid (fun _ => hand2),
        discard_pile := g.discard_pile ++ r.2.1 }
    driver_penalty_loop cards_to_put_back.length g1 pid

/-- `execute_safecracker_exchange` (`simple_bot.py` lines 2068-2134):
with valid indices into a non-empty hand and safe, the hand card and the
safe card trade places (lines 2097-2105); otherwise nothing moves. -/
def execute_safecracker_exchange (g : Game) (pid : PlayerId)
    (safe_card_idx_to_take : Nat) (hand_card_idx_to_give : Nat) : Game :=
  match getHand? g.players pid with
  | none => g
  | some hand =>
    if hand ≠ [] ∧ g.safe ≠ [] ∧ hand_card_idx_to_give < hand.length ∧
       safe_card_idx_to_take < g.safe.length then
      let card_from_hand := hand.get! hand_card_idx_to_give
      let card_from_safe := g.safe.get! safe_card_idx_to_take
      { g with
          players := updateFirstHand g.players pid
                       (fun h => h.set hand_card_idx_to_give card_from_safe),
          safe := g.safe.set safe_card_idx_to_take card_from_hand }
    else g

/-- The legal in-round card-moving operations named by the round-trip
invariant; shuffle outcomes ride along as data. -/
inductive Op
  | replaceFromDeck (pid : PlayerId) (idx : Nat)
  | replaceFromDiscard (pid : PlayerId) (idx : Nat)
  | bottleAttempt (pid : PlayerId) (idx : Nat)
  | snitchGive (targets : List PlayerId)
  | driverDiscard (pid : PlayerId) (indices : List Nat) (shuffled : List Card)
  | safecrackerExchange (pid : PlayerId) (safeIdx : Nat) (handIdx : Nat)
  | reshuffleFromDiscard (shuffled : List Card)

/-- Interpret one operation on the session state. -/
def Op.apply : Op → Game → Game
  | .replaceFromDeck pid idx, g => replace_from_deck g pid idx
  | .replaceFromDiscard pid idx, g => replace_from_discard g pid idx
  | .bottleAttempt pid idx, g => (handle_bottle_match_attempt g pid idx).1
  | .snitchGive targets, g => execute_the_snitch_ability g targets
  | .driverDiscard pid indices shuffled, g =>
      execute_the_driver_ability g pid indices shuffled
  | .safecrackerExchange pid sIdx hIdx, g =>
      execute_safecracker_exchange g pid sIdx hIdx
  | .reshuffleFromDiscard shuffled, g => reshuffle_discard_into_deck g shuffled

/-- Interpret a sequence of operations, first op first. -/
def applyOps (ops : List Op) (g : Game) : Game :=
  ops.foldl (fun s op => op.apply s) g

/-- Multiset of the cards in all hands. -/
def handsCards (ps : List Player) : Multiset Card :=
  (ps.map (fun p => (p.hand : Multiset Card))).sum

/-- Every card the session owns: deck + hands + discard pile + safe,
as a multiset (so duplication, not just count, is visible). -/
def totalCards (g : Game) : Multiset Card :=
  (g.deck : Multiset Card) + handsCards g.players
    + (g.discard_pile : Multiset Card) + (g.safe : Multiset Card)

/-- Pop the deck's top (last) card `n` times, in pop order
(the Python list comprehension `[deck.pop() for _ in range(n)]`). -/
def popN : Nat → List Card → List Card × List Card
  | 0, deck => ([], deck)
  | n + 1, deck =>
    if hd : deck = [] then ([], deck)
    else
      let c := deck.getLast hd
      let r := popN n deck.dropLast
      (c :: r.1, r.2)

/-- The hand-dealing loop of `GameState.deal_cards_to_players`
(`state.py` line 332): each participant in order receives
`[deck.pop() for _ in range(HAND_CARDS_COUNT)]` when the deck still
holds at least `HAND_CARDS_COUNT` cards, and an empty hand otherwise. -/
def deal_hands : List Player → List Card → List Player × List Card
  | [], deck => ([], deck)
  | p :: ps, deck =>
    let r :=
      if HAND_CARDS_COUNT ≤ deck.length then popN HAND_CARDS_COUNT deck
      else ([], deck)
    let rest := deal_hands ps r.2
    ({ p with hand := r.1 } :: rest.1, rest.2)

/-- A Python dictionary key as the engine uses them for
`game['blocked_cards']`: Telegram player ids are ints, AI ids and the
keys written by Police Patrol are strings. -/
inductive PyKey
  | ofInt (n : Int)
  | ofStr (s : String)
deriving DecidableEq

/-- Python `str(player_id)`. -/
def pyKeyStr : PyKey → PyKey
  | .ofInt n => .ofStr (toString n)
  | .ofStr s => .ofStr s

/-- `game['blocked_cards']`: player-key → (card index → cycles left). -/
abbrev BlockedCards := List (PyKey × List (Nat × Nat))

/-- Dictionary lookup `d.get(k)`. -/
def bcGet : BlockedCards → PyKey → Option (List (Nat × Nat))
  | [], _ => none
  | (k, m) :: rest, key => if k = key then some m else bcGet rest key

/-- `d[idx] = v` on an inner card-index map. -/
def innerSet : List (Nat × Nat) → Nat → Nat → List (Nat × Nat)
  | [], idx, v => [(idx, v)]
  | (i, c) :: rest, idx, v =>
      if i = idx then (i, v) :: rest else (i, c) :: innerSet rest idx v

/-- `d.setdefault(k, {})[idx] = v` on the outer map. -/
def bcSet : BlockedCards → PyKey → Nat → Nat → BlockedCards
  | [], key, idx, v => [(key, [(idx, v)])]
  | (k, m) :: rest, key, idx, v =>
      if k = key then (k, innerSet m idx v) :: rest
      else (k, m) :: bcSet rest key idx v

/-- The block write of `execute_police_patrol_ability`
(`simple_bot.py` lines 1849-1852):
`game['blocked_cards'].setdefault(str(target_player_id), {})[card_idx] = 2`
— the key is always `str(...)` of the target's id. -/
def police_patrol_store_block (bc : BlockedCards) (target_player_id : PyKey)
    (target_card_idx : Nat) : BlockedCards :=
  bcSet bc (pyKeyStr target_player_id) target_card_idx 2

/-- The blocked-index fetch of `handle_player_action_draw_deck`
(line 1286): `set(game.get('blocked_cards', {}).get(player_id, {}).keys())`
— looked up with the RAW `player_id` (an int for human players), not
`str(player_id)`. -/
def draw_deck_blocked_indices (bc : BlockedCards) (player_id : PyKey) : List Nat :=
  ((bcGet bc player_id).getD []).map Prod.fst

/-- Selectable hand positions in
`keyboards.get_card_selection_keyboard` (`keyboards.py` lines 160-178):
a position in `blocked_card_indices` gets a dead
`no_action_card_blocked_*` callback; every other position is offered for
selection. -/
def selectable_replacement_indices (hand_len : Nat) (blocked : List Nat) :
    List Nat :=
  (List.range hand_len).filter (fun i => ¬ i ∈ blocked)

/-- One pass of `decrement_blocked_cards_at_cycle_start`
(`simple_bot.py` lines 660-699): every recorded block loses one cycle;
entries reaching ≤ 0 are removed, and players left with no blocks are
dropped from the outer map. -/
def decrement_blocked_cards_at_cycle_start (bc : BlockedCards) : BlockedCards :=
  (bc.map fun km =>
      (km.1, (km.2.map fun ic => (ic.1, ic.2 - 1)).filter fun ic => 0 < ic.2)
    ).filter fun km => km.2 ≠ []

/-! ### Helper lemmas -/

theorem foldlMin_mem (f : α → Nat) (a : α) (l : List α) :
    l.foldl (fun b x => if f x < f b then x else b) a ∈ a :: l := by
  induction l generalizing a with
  | nil => simp
  | cons x xs ih =>
    simp only [List.foldl_cons]
    by_cases h : f x < f a
    · rw [if_pos h]
      rcases List.mem_cons.mp (ih x) with h' | h'
      · rw [h']; simp
      · simp [h']
    · rw [if_neg h]
      rcases List.mem_cons.mp (ih a) with h' | h'
      · rw [h']; simp
      · simp [h']

theorem foldlMin_le (f : α → Nat) (a : α) (l : List α) :
    ∀ y ∈ a :: l, f (l.foldl (fun b x => if f x < f b then x else b) a) ≤ f y := by
  induction l generalizing a with
  | nil =>
    intro y hy
    simp only [List.mem_singleton] at hy
    rw [hy]
    simp
  | cons x xs ih =>
    intro y hy
    simp only [List.foldl_cons]
    by_cases h : f x < f a
    · rw [if_pos h]
      rcases List.mem_cons.mp hy with h' | h'
      · rw [h']
        exact le_trans (ih x x (by simp)) (le_of_lt h)
      · exact ih x y h'
    · rw [if_neg h]
      rcases List.mem_cons.mp hy with h' | h'
      · rw [h']; exact ih a a (by simp)
      · rcases List.mem_cons.mp h' with h'' | h''
        · rw [h'']
          exact le_trans (ih a a (by simp)) (le_of_not_lt h)
        · exact ih a y (by simp [h''])

theorem foldlMin_strict (f : α → Nat) (a : α) (l : List α) (m : α)
    (hm : m ∈ a :: l) (hs : ∀ y ∈ a :: l, y ≠ m → f m < f y) :
    l.foldl (fun b x => if f x < f b then x else b) a = m := by
  induction l generalizing a with
  | nil =>
    simp only [List.mem_singleton] at hm
    simpa using hm.symm
  | cons x xs ih =>
    simp only [List.foldl_cons]
    have hstep : ∀ b, (b = a ∨ b = x) →
        (if f x < f a then x else a) = m ∨
        (m ∈ xs ∧ f m < f (if f x < f a then x else a)) := by
      intro _ _
      by_cases hxm : x = m
      · left
        by_cases ham : a = m
        · by_cases h : f x < f a
          · rw [if_pos h]; exact hxm
          · rw [if_neg h]; exact ham
        · rw [if_pos (by rw [hxm]; exact hs a (by simp) ham)]
          exact hxm
      · by_cases ham : a = m
        · left
          rw [if_neg]
          · exact ham
          · rw [ham]
            exact not_lt_of_gt (hs x (by simp) hxm)
        · right
          have hmxs : m ∈ xs := by
            rcases List.mem_cons.mp hm with h' | h'
            · exact absurd h'.symm ham
            · rcases List.mem_cons.mp h' with h'' | h''
              · exact absurd h''.symm hxm
              · exact h''
          refine ⟨hmxs, ?_⟩
          by_cases h : f x < f a
          · rw [if_pos h]; exact hs x (by simp) hxm
          · rw [if_neg h]; exact hs a (by simp) ham
    rcases hstep a (Or.inl rfl) with heq | ⟨hmxs, hlt⟩
    · rw [heq] at *
      refine ih m (by simp) ?_
      intro y hy hym
      rcases List.mem_cons.mp hy with h' | h'
      · exact absurd h' hym
      · exact hs y (by simp [h']) hym
    · refine ih _ (by simp [hmxs]) ?_
      intro y hy hym
      rcases List.mem_cons.mp hy with h' | h'
      · rw [h']; exact hlt
      · exact hs y (by simp [h']) hym

theorem stableMinBy_mem (f : α → Nat) (l : List α) (m : α)
    (h : stableMinBy f l = some m) : m ∈ l := by
  cases l with
  | nil => simp [stableMinBy] at h
  | cons a as =>
    simp only [stableMinBy, Option.some.injEq] at h
    subst h
    exact foldlMin_mem f a as

theorem stableMinBy_le (f : α → Nat) (l : List α) (m : α)
    (h : stableMinBy f l = some m) : ∀ y ∈ l, f m ≤ f y := by
  cases l with
  | nil => simp [stableMinBy] at h
  | cons a as =>
    simp only [stableMinBy, Option.some.injEq] at h
    subst h
    exact foldlMin_le f a as

theorem stableMinBy_strict (f : α → Nat) (l : List α) (m : α)
    (hm : m ∈ l) (hs : ∀ y ∈ l, y ≠ m → f m < f y) :
    stableMinBy f l = some m := by
  cases l with
  | nil => simp at hm
  | cons a as =>
    simp only [stableMinBy, Option.some.injEq]
    exact foldlMin_strict f a as m hm hs

theorem stableMinBy_isSome (f : α → Nat) (l : List α) (h : l ≠ []) :
    ∃ m, stableMinBy f l = some m := by
  cases l with
  | nil => exact absurd rfl h
  | cons a as => exact ⟨_, rfl⟩

theorem getHand?_updateFirstHand (ps : List Player) (pid : PlayerId)
    (f : List Card → List Card) :
    getHand? (updateFirstHand ps pid f) pid = (getHand? ps pid).map f := by
  induction ps with
  | nil => simp [getHand?, updateFirstHand]
  | cons p rest ih =>
    by_cases h : p.pid = pid
    · simp [getHand?, updateFirstHand, h]
    · simp [getHand?, updateFirstHand, h, ih]

theorem updateFirstHand_of_none (ps : List Player) (pid : PlayerId)
    (f : List Card → List Card) (h : getHand? ps pid = none) :
    updateFirstHand ps pid f = ps := by
  induction ps with
  | nil => simp [updateFirstHand]
  | cons p rest ih =>
    by_cases hp : p.pid = pid
    · simp [getHand?, hp] at h
    · simp only [getHand?, hp, if_neg] at h
      simp [updateFirstHand, hp, ih h]

theorem handsCards_updateFirstHand (ps : List Player) (pid : PlayerId)
    (f : List Card → List Card) (h : List Card)
    (hh : getHand? ps pid = some h) :
    handsCards (updateFirstHand ps pid f) + (h : Multiset Card)
      = handsCards ps + (f h : Multiset Card) := by
  induction ps with
  | nil => simp [getHand?] at hh
  | cons p rest ih =>
    by_cases hp : p.pid = pid
    · simp only [getHand?, if_pos hp, Option.some.injEq] at hh
      subst hh
      simp only [updateFirstHand, if_pos hp, handsCards, List.map_cons, List.sum_cons]
      abel
    · simp only [getHand?, if_neg hp] at hh
      have hrec := ih hh
      simp only [handsCards, List.map_cons, List.sum_cons] at hrec ⊢
      simp only [updateFirstHand, if_neg hp, List.map_cons, List.sum_cons]
      rw [add_assoc, hrec, ← add_assoc]

theorem multiset_getLast_dropLast (l : List Card) (h : l ≠ []) :
    ((l.dropLast : List Card) : Multiset Card) + {l.getLast h}
      = (l : Multiset Card) := by
  conv_rhs => rw [← List.dropLast_append_getLast h]
  rw [← Multiset.coe_add]
  rfl

theorem multiset_set (l : List Card) (i : Nat) (a : Card) (h : i < l.length) :
    ((l.set i a : List Card) : Multiset Card) + {l.get! i}
      = (l : Multiset Card) + {a} := by
  induction l generalizing i with
  | nil => simp at h
  | cons c cs ih =>
    cases i with
    | zero =>
      show ((a :: cs : List Card) : Multiset Card) + {c}
        = ((c :: cs : List Card) : Multiset Card) + {a}
      rw [← Multiset.cons_coe, ← Multiset.cons_coe, Multiset.cons_add, Multiset.cons_add,
        add_comm ((cs : Multiset Card)) ({c} : Multiset Card),
        add_comm ((cs : Multiset Card)) ({a} : Multiset Card),
        Multiset.singleton_add, Multiset.singleton_add]
      exact Multiset.cons_swap a c _
    | succ i =>
      show ((c :: cs.set i a : List Card) : Multiset Card) + {cs.get! i}
        = ((c :: cs : List Card) : Multiset Card) + {a}
      rw [← Multiset.cons_coe, ← Multiset.cons_coe]
      simp only [Multiset.cons_add]
      rw [ih i (by simpa using h)]

theorem multiset_eraseIdx (l : List Card) (i : Nat) (h : i < l.length) :
    ((l.eraseIdx i : List Card) : Multiset Card) + {l.get! i}
      = (l : Multiset Card) := by
  induction l generalizing i with
  | nil => simp at h
  | cons c cs ih =>
    cases i with
    | zero =>
      simp only [List.eraseIdx, List.get!]
      rw [← Multiset.cons_coe]
      rw [add_comm]
      rfl
    | succ i =>
      simp only [List.eraseIdx, List.get!]
      rw [← Multiset.cons_coe, ← Multiset.cons_coe]
      simp only [Multiset.cons_add]
      rw [ih i (by simpa using h)]

theorem find?_eq_some_of_unique {α : Type _} (pk : α → Bool) (l : List α) (c : α)
    (hc : c ∈ l) (hpk : pk c = true) (huniq : ∀ b ∈ l, pk b = true → b = c) :
    l.find? pk = some c := by
  induction l with
  | nil => simp at hc
  | cons a as ih =>
    by_cases ha : pk a = true
    · rw [List.find?_cons_of_pos _ ha]
      rw [huniq a (by simp) ha]
    · rw [List.find?_cons_of_neg _ ha]
      rcases List.mem_cons.mp hc with h' | h'
      · rw [← h'] at ha; exact absurd hpk ha
      · exact ih h' (fun b hb hpb => huniq b (by simp [hb]) hpb)

/-! ### Claim theorems -/

/-- C10: every deck `create_deck` produces contains exactly 64 cards
before shuffling — four bottle cards of each value 1 through 10, each
worth its value in points, three copies each of The Alibi and The
Witness, and two copies of each of the other nine character cards — and
shuffling (any permutation of `create_deck`) preserves exactly this
multiset of cards. -/
theorem create_deck_composition (d : List Card) (hperm : d.Perm create_deck) :
    d.length = 64
    ∧ (∀ v ∈ List.range' 1 10, d.count (Card.bottle v) = 4)
    ∧ (∀ v, (Card.bottle v).points = v)
    ∧ d.count (Card.character "The Alibi" 0) = 3
    ∧ d.count (Card.character "The Witness" 10) = 3
    ∧ (∀ ct ∈ CHARACTER_CARDS, ct.1 ≠ "The Alibi" → ct.1 ≠ "The Witness" →
        d.count (Card.character ct.1 ct.2) = 2)
    ∧ (d : Multiset Card) = (create_deck : Multiset Card) := by
  refine ⟨?_, ?_, ?_, ?_, ?_, ?_, ?_⟩
  · rw [hperm.length_eq]; decide
  · intro v hv
    rw [hperm.count_eq]
    revert v hv; decide
  · intro v; rfl
  · rw [hperm.count_eq]; decide
  · rw [hperm.count_eq]; decide
  · intro ct hct h1 h2
    rw [hperm.count_eq]
    revert ct hct h1 h2; decide
  · exact Multiset.coe_eq_coe.mpr hperm

/-- C10 witness: the unshuffled deck itself. -/
theorem create_deck_composition_witness :
    create_deck.Perm create_deck ∧ create_deck.length = 64 :=
  ⟨List.Perm.refl _, (create_deck_composition create_deck (List.Perm.refl _)).1⟩

/-- C9: calling the Omerta settlement handler on a game whose phase is
already `omerta_called` or `completed` is a no-op: the session state is
returned unchanged — no hand is revealed, no score recomputed, no phase
change, no second result record. -/
theorem handle_omerta_call_terminal_noop (g : Game) (caller : Option PlayerId)
    (h : g.phase = Phase.omerta_called ∨ g.phase = Phase.completed) :
    handle_omerta_call g caller = g := by
  unfold handle_omerta_call
  rw [if_pos h]

/-- A completed round, for exercising the re-entry guard. -/
def terminalGame : Game :=
  { phase := Phase.omerta_called,
    players := [{ pid := 1, hand := [Card.bottle 3], status := PStatus.active,
                  is_ai := false }],
    deck := [Card.bottle 9], discard_pile := [Card.bottle 5], safe := [],
    omerta_caller_id := some 1 }

/-- C9 witness. -/
theorem handle_omerta_call_terminal_noop_witness :
    (terminalGame.phase = Phase.omerta_called ∨ terminalGame.phase = Phase.completed)
    ∧ handle_omerta_call terminalGame (some 2) = terminalGame :=
  ⟨Or.inl rfl, handle_omerta_call_terminal_noop terminalGame (some 2) (Or.inl rfl)⟩

/-- C7 (code evaluated at the failing input): `execute_police_patrol_ability`
stores the block for human player 42 under the string key "42"
(`str(target_player_id)`), but `handle_player_action_draw_deck` fetches
the blocked indices for the replacement prompt with the raw integer key
42, finds nothing, and therefore offers every hand position — including
the blocked position 0 — for selection while the block still has 2
cycles remaining. -/
theorem blocked_card_still_selectable_for_replacement :
    police_patrol_store_block [] (PyKey.ofInt 42) 0
      = [(PyKey.ofStr "42", [(0, 2)])]
    ∧ bcGet (police_patrol_store_block [] (PyKey.ofInt 42) 0) (PyKey.ofStr "42")
      = some [(0, 2)]
    ∧ draw_deck_blocked_indices
        (police_patrol_store_block [] (PyKey.ofInt 42) 0) (PyKey.ofInt 42) = []
    ∧ selectable_replacement_indices HAND_CARDS_COUNT
        (draw_deck_blocked_indices
          (police_patrol_store_block [] (PyKey.ofInt 42) 0) (PyKey.ofInt 42))
      = [0, 1, 2, 3] := by
  decide

/-- The Snitch context as suspended by a Killer interrupt: the confirm
flow sets `step = 'snitch_confirmed_targets'` right before
`check_for_killer_reaction` (line 3855), and the snapshot carries the
confirmed targets. -/
def snitchInterruptedSnap : AbilityCtxCore :=
  { player_id := 7, card_name := "The Snitch",
    step := "snitch_confirmed_targets", targets_chosen := [3] }

/-- The Mamma context as suspended when an AI used The Mamma
(`step = 'mamma_confirmed_target'`, line 2249). -/
def aiMammaInterruptedSnap : AbilityCtxCore :=
  { player_id := 8, card_name := "The Mamma",
    step := "mamma_confirmed_target", targets_chosen := [2] }

/-- The Lady context as suspended (`step = 'lady_confirm_target'`). -/
def ladyInterruptedSnap : AbilityCtxCore :=
  { player_id := 9, card_name := "The Lady",
    step := "lady_confirm_target", targets_chosen := [2] }

/-- C3 (code evaluated at the failing input): resuming after a Killer
decline / failure / timeout auto-executes a Lady suspended at her
final-confirmation step, but a Snitch suspended at its
final-confirmation step `snitch_confirmed_targets` — and a Mamma used by
an AI, suspended at `mamma_confirmed_target` — match none of the resume
dispatcher's substring tests and fall into its CRITICAL FALLBACK: the
context is cleared and the ability's effect is lost instead of being
executed. -/
theorem killer_resume_drops_snitch_and_ai_mamma :
    ("The Snitch", "snitch_confirmed_targets") ∈ interruptible_confirm_steps
    ∧ ("The Mamma", "mamma_confirmed_target") ∈ interruptible_confirm_steps
    ∧ resume_original_ability snitchInterruptedSnap = ResumeOutcome.fizzled
    ∧ resume_original_ability aiMammaInterruptedSnap = ResumeOutcome.fizzled
    ∧ resume_original_ability ladyInterruptedSnap
      = ResumeOutcome.executed "The Lady" := by
  decide

/-- A mid-round position with an exhausted deck and a one-card discard
pile, so the reshuffle (which keeps the top card in place) produces an
empty deck. -/
def singleDiscardGame : Game :=
  { phase := Phase.playing,
    players := [{ pid := 1, hand := [Card.bottle 2], status := PStatus.active,
                  is_ai := false },
                { pid := 2, hand := [Card.bottle 3], status := PStatus.active,
                  is_ai := true }],
    deck := [], discard_pile := [Card.bottle 7], safe := [] }

/-- C6 counterexample: when the deck is empty, the discard pile holds a
single card and the reshuffle therefore leaves the deck empty, the HUMAN
draw-from-deck handler does not force an Omerta call — it re-offers the
player's remaining turn options, leaving the phase at `playing` and
recording no caller.  (The AI turn handler in the same position does
force the Omerta.) -/
theorem human_empty_deck_draw_not_forced_omerta :
    handle_player_action_draw_deck singleDiscardGame []
      = DeckDrawResult.offeredAlternatives singleDiscardGame
    ∧ singleDiscardGame.phase = Phase.playing
    ∧ singleDiscardGame.omerta_caller_id = none
    ∧ handle_ai_player_turn_draw singleDiscardGame 2 []
      = DeckDrawResult.forcedOmerta (handle_omerta_call singleDiscardGame (some 2)) := by
  decide

/-- C6 (amended): a draw attempted on an empty deck with a non-empty
discard pile reshuffles the pile's remainder into a new deck of exactly
`len(old discard) - 1` cards, keeping the old top card as the sole
discard; if at least one card was reshuffled the draw proceeds normally
(for humans and AI alike); if the deck is still empty afterwards, the AI
turn handler forces an Omerta call while the human draw handler instead
re-offers the player's other turn options. -/
theorem empty_deck_reshuffle_behavior (g : Game) (pid : PlayerId)
    (shuffled : List Card) (hdeck : g.deck = []) (hdisc : g.discard_pile ≠ [])
    (hperm : shuffled.Perm g.discard_pile.dropLast) :
    (reshuffle_discard_into_deck g shuffled).deck.length
      = g.discard_pile.length - 1
    ∧ (reshuffle_discard_into_deck g shuffled).discard_pile
      = [g.discard_pile.getLast hdisc]
    ∧ (2 ≤ g.discard_pile.length →
        (∃ g2 c, handle_player_action_draw_deck g shuffled
          = DeckDrawResult.drew g2 c)
        ∧ (∃ g2 c, handle_ai_player_turn_draw g pid shuffled
          = DeckDrawResult.drew g2 c))
    ∧ (g.discard_pile.length = 1 →
        handle_player_action_draw_deck g shuffled
          = DeckDrawResult.offeredAlternatives (reshuffle_discard_into_deck g shuffled)
        ∧ handle_ai_player_turn_draw g pid shuffled
          = DeckDrawResult.forcedOmerta
              (handle_omerta_call (reshuffle_discard_into_deck g shuffled) (some pid))) := by
  have hK : reshuffle_discard_into_deck g shuffled
      = { g with deck := shuffled,
                 discard_pile := [g.discard_pile.getLast hdisc] } := by
    unfold reshuffle_discard_into_deck
    rw [dif_pos ⟨hdeck, hdisc⟩]
    simp only [if_pos hperm]
  have hlen : shuffled.length = g.discard_pile.length - 1 := by
    rw [hperm.length_eq, List.length_dropLast]
  refine ⟨?_, ?_, ?_, ?_⟩
  · rw [hK]; exact hlen
  · rw [hK]
  · intro h2
    have hne : shuffled ≠ [] := by
      intro h0
      rw [h0] at hlen
      simp at hlen
      omega
    have hKne : (reshuffle_discard_into_deck g shuffled).deck ≠ [] := by
      rw [hK]; exact hne
    constructor
    · refine ⟨{ reshuffle_discard_into_deck g shuffled with
                deck := (reshuffle_discard_into_deck g shuffled).deck.dropLast },
              (reshuffle_discard_into_deck g shuffled).deck.getLast hKne, ?_⟩
      simp only [handle_player_action_draw_deck, if_pos hdeck, dif_neg hKne]
    · refine ⟨{ reshuffle_discard_into_deck g shuffled with
                deck := (reshuffle_discard_into_deck g shuffled).deck.dropLast },
              (reshuffle_discard_into_deck g shuffled).deck.getLast hKne, ?_⟩
      simp only [handle_ai_player_turn_draw, if_pos hdeck, dif_neg hKne]
  · intro h1
    have h0 : shuffled = [] := by
      rw [h1] at hlen
      simpa using List.length_eq_zero.mp (by omega)
    have hKe : (reshuffle_discard_into_deck g shuffled).deck = [] := by
      rw [hK]; exact h0
    constructor
    · simp only [handle_player_action_draw_deck, if_pos hdeck, dif_pos hKe]
    · simp only [handle_ai_player_turn_draw, if_pos hdeck, dif_pos hKe]

/-- A two-card discard pile over an empty deck, to exercise the amended
reshuffle claim with a draw that proceeds. -/
def twoDiscardGame : Game :=
  { phase := Phase.playing,
    players := [{ pid := 1, hand := [Card.bottle 2], status := PStatus.active,
                  is_ai := false }],
    deck := [], discard_pile := [Card.bottle 4, Card.bottle 7], safe := [] }

/-- C6 witness. -/
theorem empty_deck_reshuffle_behavior_witness :
    twoDiscardGame.deck = [] ∧ twoDiscardGame.discard_pile ≠ []
    ∧ [Card.bottle 4].Perm twoDiscardGame.discard_pile.dropLast
    ∧ (reshuffle_discard_into_deck twoDiscardGame [Card.bottle 4]).deck.length
        = twoDiscardGame.discard_pile.length - 1 := by
  have h := empty_deck_reshuffle_behavior twoDiscardGame 1 [Card.bottle 4]
    rfl (by decide) (by decide)
  exact ⟨rfl, by decide, by decide, h.1⟩

/-- A bottle-matching window in which player 1 holds a four-card hand
with no matching bottle at position 0, over a non-empty deck. -/
def bottleWindowGame : Game :=
  { phase := Phase.bottle_matching_window,
    players := [{ pid := 1,
                  hand := [Card.bottle 3, Card.bottle 4,
                           Card.character "The Witness" 10,
                           Card.character "The Alibi" 0],
                  status := PStatus.active, is_ai := false },
                { pid := 2, hand := [Card.bottle 5], status := PStatus.active,
                  is_ai := true }],
    deck := [Card.bottle 9], discard_pile := [Card.bottle 5], safe := [],
    bottle_match_context := some { discarded_card_value := 5,
                                   triggering_player_id := some 2 },
    current_player_id := some 2 }

/-- C8 counterexample: hands are not a fixed-capacity-4 container during
play — in a reachable `bottle_matching_window` state, a failed match
attempt draws a penalty card and player 1's hand grows from 4 to 5
cards. -/
theorem hand_exceeds_four_after_failed_match :
    bottleWindowGame.phase = Phase.bottle_matching_window
    ∧ (getHand? bottleWindowGame.players 1).map List.length = some 4
    ∧ (handle_bottle_match_attempt bottleWindowGame 1 0).2 = AttemptOutcome.failure
    ∧ (getHand? (handle_bottle_match_attempt bottleWindowGame 1 0).1.players 1).map
        List.length = some 5 := by
  decide

/-- `popN n` pops exactly `n` cards when the deck holds at least `n`. -/
theorem popN_spec (n : Nat) (deck : List Card) (h : n ≤ deck.length) :
    (popN n deck).1.length = n ∧ (popN n deck).2.length = deck.length - n := by
  induction n generalizing deck with
  | zero => simp [popN]
  | succ n ih =>
    have hne : deck ≠ [] := by
      intro h0; rw [h0] at h; simp at h
    have hdl : deck.dropLast.length = deck.length - 1 := List.length_dropLast deck
    have hrec := ih deck.dropLast (by omega)
    unfold popN
    rw [dif_neg hne]
    constructor
    · simpa using hrec.1
    · simp only
      rw [hrec.2, hdl]
      omega

/-- C8 (amended): at deal time each participant's hand is dealt exactly
`HAND_CARDS_COUNT = 4` cards whenever the deck still holds at least 4
cards for each of them (with the 64-card fresh deck and at most 9
players this always holds); hand sizes then vary during play as penalty
draws add cards and matched discards remove them. -/
theorem deal_hands_gives_four (ps : List Player) (deck : List Card)
    (h : HAND_CARDS_COUNT * ps.length ≤ deck.length) :
    ∀ q ∈ (deal_hands ps deck).1, q.hand.length = HAND_CARDS_COUNT := by
  induction ps generalizing deck with
  | nil => simp [deal_hands]
  | cons p rest ih =>
    have hp : HAND_CARDS_COUNT ≤ deck.length := by
      simp only [List.length_cons] at h
      have : HAND_CARDS_COUNT * (rest.length + 1)
          = HAND_CARDS_COUNT * rest.length + HAND_CARDS_COUNT := by ring
      omega
    have hspec := popN_spec HAND_CARDS_COUNT deck hp
    intro q hq
    unfold deal_hands at hq
    rw [if_pos hp] at hq
    rcases List.mem_cons.mp hq with h' | h'
    · rw [h']
      exact hspec.1
    · refine ih (popN HAND_CARDS_COUNT deck).2 ?_ q h'
      rw [hspec.2]
      simp only [List.length_cons] at h
      have : HAND_CARDS_COUNT * (rest.length + 1)
          = HAND_CARDS_COUNT * rest.length + HAND_CARDS_COUNT := by ring
      omega

/-- C8 witness: dealing three players from the full 64-card deck. -/
theorem deal_hands_gives_four_witness :
    HAND_CARDS_COUNT *
      ([⟨1, [], PStatus.active, false, 0⟩, ⟨2, [], PStatus.active, false, 0⟩,
        ⟨3, [], PStatus.active, true, 0⟩] : List Player).length ≤ create_deck.length
    ∧ ∀ q ∈ (deal_hands
        [⟨1, [], PStatus.active, false, 0⟩, ⟨2, [], PStatus.active, false, 0⟩,
         ⟨3, [], PStatus.active, true, 0⟩] create_deck).1,
        q.hand.length = HAND_CARDS_COUNT :=
  ⟨by decide,
   deal_hands_gives_four _ create_deck (by decide)⟩

/-- C4: a stale timer never mutates the game.  For each timeout callback
(ability timeout, bottle-window expiry, AI bottle-match attempt): when at
firing time the session is gone, or the guarded context is absent, or the
current context's identity differs from the identity captured at
scheduling, the callback returns the state unchanged with no effect. -/
theorem stale_timer_callbacks_no_mutation (g : Game) (sigA fresh sigE sigB : Nat)
    (pid : PlayerId) (idx : Nat) :
    ((g.active_ability_context = none ∨
        ∃ c, g.active_ability_context = some c ∧ c.sig ≠ sigA) →
      character_ability_timeout_job (some g) sigA fresh = (some g, JobEffect.noop))
    ∧ ((g.bottle_match_context = none ∨
          ∃ c, g.bottle_match_context = some c ∧ c.sig ≠ sigE) →
        end_bottle_match_window_job (some g) (some sigE) = (some g, JobEffect.noop))
    ∧ ((g.bottle_match_context = none ∨
          ∃ c, g.bottle_match_context = some c ∧ c.sig ≠ sigB) →
        ai_attempt_bottle_match_job (some g) pid idx sigB = (some g, JobEffect.noop))
    ∧ character_ability_timeout_job none sigA fresh = (none, JobEffect.noop)
    ∧ end_bottle_match_window_job none (some sigE) = (none, JobEffect.noop)
    ∧ ai_attempt_bottle_match_job none pid idx sigB = (none, JobEffect.noop) := by
  refine ⟨?_, ?_, ?_, rfl, rfl, rfl⟩
  · rintro (h | ⟨c, hc, hs⟩)
    · simp [character_ability_timeout_job, h]
    · simp [character_ability_timeout_job, hc, hs]
  · rintro (h | ⟨c, hc, hs⟩)
    · simp [end_bottle_match_window_job, h]
    · by_cases hphase : g.phase = Phase.bottle_matching_window
      · simp [end_bottle_match_window_job, hc, hphase, hs]
      · simp [end_bottle_match_window_job, hc, hphase]
  · rintro (h | ⟨c, hc, hs⟩)
    · by_cases hphase : g.phase = Phase.bottle_matching_window
      · simp [ai_attempt_bottle_match_job, hphase, h]
      · simp [ai_attempt_bottle_match_job, hphase]
    · by_cases hphase : g.phase = Phase.bottle_matching_window
      · simp [ai_attempt_bottle_match_job, hphase, hc, hs]
      · simp [ai_attempt_bottle_match_job, hphase]

/-- A session with a live ability context of identity 5 and a live bottle
context of identity 9, for firing timers scheduled against other
(replaced) contexts. -/
def staleTimerGame : Game :=
  { phase := Phase.bottle_matching_window,
    players := [{ pid := 1, hand := [Card.bottle 2], status := PStatus.active,
                  is_ai := false }],
    deck := [], discard_pile := [], safe := [],
    active_ability_context := some { player_id := 1, card_name := "The Lady",
                                     step := "lady_select_target", sig := 5 },
    bottle_match_context := some { discarded_card_value := 4, sig := 9 } }

/-- C4 witness. -/
theorem stale_timer_callbacks_no_mutation_witness :
    character_ability_timeout_job (some staleTimerGame) 6 0
      = (some staleTimerGame, JobEffect.noop)
    ∧ end_bottle_match_window_job (some staleTimerGame) (some 10)
      = (some staleTimerGame, JobEffect.noop)
    ∧ ai_attempt_bottle_match_job (some staleTimerGame) 1 0 11
      = (some staleTimerGame, JobEffect.noop) := by
  have h := stale_timer_callbacks_no_mutation staleTimerGame 6 0 10 11 1 0
  exact ⟨h.1 (Or.inr ⟨_, rfl, by decide⟩),
         h.2.1 (Or.inr ⟨_, rfl, by decide⟩),
         h.2.2.1 (Or.inr ⟨_, rfl, by decide⟩)⟩

/-- The attempting player can no longer affect this window: the window is
closed (context gone) or the player is in its failed set. -/
def bm_barred (g : Game) (p : PlayerId) : Prop :=
  match g.bottle_match_context with
  | none => True
  | some ctx => p ∈ ctx.failed_matchers

theorem attempt_of_no_ctx (g : Game) (p : PlayerId) (i : Nat)
    (h : g.bottle_match_context = none) :
    handle_bottle_match_attempt g p i = (g, AttemptOutcome.rejected) := by
  rcases hh : getHand? g.players p with _ | hand <;>
    simp [handle_bottle_match_attempt, hh, h]

/-- Case analysis on one attempt: it is rejected with the state returned
unchanged; or it succeeds from a winner-free window the player had not
failed in, and retires the window's context; or it fails, barring the
player and drawing a penalty card exactly when the deck is non-empty. -/
theorem attempt_cases (g : Game) (p : PlayerId) (i : Nat) :
    handle_bottle_match_attempt g p i = (g, AttemptOutcome.rejected)
    ∨ ((handle_bottle_match_attempt g p i).2 = AttemptOutcome.success
        ∧ (handle_bottle_match_attempt g p i).1.bottle_match_context = none
        ∧ ∃ ctx, g.bottle_match_context = some ctx
            ∧ ctx.fastest_matcher_id = none ∧ p ∉ ctx.failed_matchers)
    ∨ ((handle_bottle_match_attempt g p i).2 = AttemptOutcome.failure
        ∧ (∃ ctx, g.bottle_match_context = some ctx
            ∧ (handle_bottle_match_attempt g p i).1.bottle_match_context
              = some { ctx with
                       failed_matchers := ctx.failed_matchers ++ [p] })
        ∧ (g.deck = [] →
            (handle_bottle_match_attempt g p i).1.players = g.players
            ∧ (handle_bottle_match_attempt g p i).1.deck = g.deck)
        ∧ (g.deck ≠ [] →
            (handle_bottle_match_attempt g p i).1.deck = g.deck.dropLast
            ∧ (getHand? (handle_bottle_match_attempt g p i).1.players p).map
                List.length
              = (getHand? g.players p).map (fun h => h.length + 1))) := by
  rcases hh : getHand? g.players p with _ | hand
  · left
    rcases hc : g.bottle_match_context with _ | ctx <;>
      simp [handle_bottle_match_attempt, hh, hc]
  · rcases hc : g.bottle_match_context with _ | ctx
    · left; simp [handle_bottle_match_attempt, hh, hc]
    · by_cases hphase : g.phase = Phase.bottle_matching_window
      · rcases hw : ctx.fastest_matcher_id with _ | w
        · by_cases hf : p ∈ ctx.failed_matchers
          · left
            simp [handle_bottle_match_attempt, hh, hc, hphase, hw, hf]
          · by_cases hi : i < hand.length
            · by_cases hmatch : hand[i].isBottle = true ∧
                  hand[i].value? = some ctx.discarded_card_value
              · right; left
                refine ⟨?_, ?_, ctx, rfl, hw, hf⟩ <;>
                  simp [handle_bottle_match_attempt, hh, hc, hphase, hw, hf, hi,
                    hmatch]
              · right; right
                by_cases hdeck : g.deck = []
                · refine ⟨?_, ⟨ctx, rfl, ?_⟩, fun _ => ⟨?_, ?_⟩,
                    fun hne => absurd hdeck hne⟩ <;>
                    simp [handle_bottle_match_attempt, hh, hc, hphase, hw, hf, hi,
                      hmatch, hdeck]
                · refine ⟨?_, ⟨ctx, rfl, ?_⟩, fun he => absurd he hdeck,
                    fun _ => ⟨?_, ?_⟩⟩ <;>
                    simp [handle_bottle_match_attempt, hh, hc, hphase, hw, hf, hi,
                      hmatch, hdeck, getHand?_updateFirstHand]
            · left
              simp [handle_bottle_match_attempt, hh, hc, hphase, hw, hf, hi]
        · left
          simp [handle_bottle_match_attempt, hh, hc, hphase, hw]
      · left
        simp [handle_bottle_match_attempt, hh, hc, hphase]

theorem attempt_barred_rejected (g : Game) (p : PlayerId) (i : Nat)
    (h : bm_barred g p) :
    handle_bottle_match_attempt g p i = (g, AttemptOutcome.rejected) := by
  rcases hc : g.bottle_match_context with _ | ctx
  · exact attempt_of_no_ctx g p i hc
  · simp only [bm_barred, hc] at h
    rcases hh : getHand? g.players p with _ | hand
    · simp [handle_bottle_match_attempt, hh, hc]
    · by_cases hphase : g.phase = Phase.bottle_matching_window
      · rcases hw : ctx.fastest_matcher_id with _ | w
        · simp [handle_bottle_match_attempt, hh, hc, hphase, hw, h]
        · simp [handle_bottle_match_attempt, hh, hc, hphase, hw]
      · simp [handle_bottle_match_attempt, hh, hc, hphase]

theorem attempt_preserves_barred (g : Game) (p q : PlayerId) (i : Nat)
    (h : bm_barred g q) :
    bm_barred (handle_bottle_match_attempt g p i).1 q := by
  rcases attempt_cases g p i with hA | ⟨_, hN, _⟩ | ⟨_, ⟨ctx, hc, hN⟩, _⟩
  · rw [hA]; exact h
  · simp only [bm_barred, hN]
  · simp only [bm_barred, hN]
    simp only [bm_barred, hc] at h
    exact List.mem_append_left _ h

theorem runAttempts_ctx_none (atts : List (PlayerId × Nat)) (g : Game)
    (h : g.bottle_match_context = none) :
    runAttempts g atts = (g, atts.map fun _ => AttemptOutcome.rejected) := by
  induction atts with
  | nil => simp [runAttempts]
  | cons a rest ih =>
    rcases a with ⟨p, i⟩
    simp [runAttempts, attempt_of_no_ctx g p i h, ih]

theorem runAttempts_success_count (atts : List (PlayerId × Nat)) (g : Game) :
    ((runAttempts g atts).2.count AttemptOutcome.success) ≤ 1 := by
  induction atts generalizing g with
  | nil => simp [runAttempts]
  | cons a rest ih =>
    rcases a with ⟨p, i⟩
    rcases attempt_cases g p i with hA | ⟨hS, hN, _⟩ | ⟨hF, _, _⟩
    · simp only [runAttempts, hA]
      rw [List.count_cons_of_ne (by decide)]
      exact ih g
    · simp only [runAttempts]
      rw [hS, runAttempts_ctx_none rest _ hN]
      simp only [List.count_cons_self]
      have : (rest.map fun _ => AttemptOutcome.rejected).count
          AttemptOutcome.success = 0 := by
        rw [List.count_eq_zero]
        intro hmem
        rcases List.mem_map.mp hmem with ⟨_, _, habs⟩
        exact absurd habs.symm (by decide)
      omega
    · simp only [runAttempts]
      rw [hF, List.count_cons_of_ne (by decide)]
      exact ih _

theorem runAttempts_barred_rejected (atts : List (PlayerId × Nat)) (g : Game)
    (p : PlayerId) (h : bm_barred g p) :
    ∀ pr ∈ atts.zip (runAttempts g atts).2, pr.1.1 = p →
      pr.2 = AttemptOutcome.rejected := by
  induction atts generalizing g with
  | nil => simp [runAttempts]
  | cons a rest ih =>
    rcases a with ⟨q, i⟩
    intro pr hpr hpp
    by_cases hq : q = p
    · subst hq
      have hr := attempt_barred_rejected g q i h
      simp only [runAttempts, hr] at hpr
      rcases List.mem_cons.mp hpr with h' | h'
      · rw [h']
      · exact ih g h pr h' hpp
    · have hbar := attempt_preserves_barred g q p i h
      simp only [runAttempts] at hpr
      rcases List.mem_cons.mp hpr with h' | h'
      · rw [h'] at hpp
        exact absurd hpp hq
      · exact ih _ hbar pr h' hpp

/-- C2: in every bottle-match window, (i) at most one player is ever
recorded as the winning matcher across any sequence of attempts — an
attempt is rejected whenever a winner is already recorded, and a player
is recorded as winner only when no winner existed and the player had not
failed in the window; (ii) once a player fails, every later attempt by
that player in the same window is rejected; (iii) a failed attempt adds
the player to the window's failed set and draws exactly one penalty card
into their hand if and only if the deck is non-empty. -/
theorem bottle_match_window_invariants :
    (∀ (g : Game) (atts : List (PlayerId × Nat)),
        ((runAttempts g atts).2.count AttemptOutcome.success) ≤ 1)
    ∧ (∀ (g : Game) (p : PlayerId) (i : Nat) (ctx : BottleCtx) (w : PlayerId),
        g.bottle_match_context = some ctx →
        ctx.fastest_matcher_id = some w →
        handle_bottle_match_attempt g p i = (g, AttemptOutcome.rejected))
    ∧ (∀ (g : Game) (p : PlayerId) (i : Nat),
        (handle_bottle_match_attempt g p i).2 = AttemptOutcome.success →
        ∃ ctx, g.bottle_match_context = some ctx
          ∧ ctx.fastest_matcher_id = none ∧ p ∉ ctx.failed_matchers)
    ∧ (∀ (g : Game) (p : PlayerId) (atts : List (PlayerId × Nat)), bm_barred g p →
        ∀ pr ∈ atts.zip (runAttempts g atts).2, pr.1.1 = p →
          pr.2 = AttemptOutcome.rejected)
    ∧ (∀ (g : Game) (p : PlayerId) (i : Nat),
        (handle_bottle_match_attempt g p i).2 = AttemptOutcome.failure →
        (∃ ctx, g.bottle_match_context = some ctx
          ∧ (handle_bottle_match_attempt g p i).1.bottle_match_context
            = some { ctx with failed_matchers := ctx.failed_matchers ++ [p] })
        ∧ (g.deck = [] →
            (handle_bottle_match_attempt g p i).1.players = g.players
            ∧ (handle_bottle_match_attempt g p i).1.deck = g.deck)
        ∧ (g.deck ≠ [] →
            (handle_bottle_match_attempt g p i).1.deck = g.deck.dropLast
            ∧ (getHand? (handle_bottle_match_attempt g p i).1.players p).map
                List.length
              = (getHand? g.players p).map (fun h => h.length + 1))) := by
  refine ⟨fun g atts => runAttempts_success_count atts g, ?_, ?_, ?_, ?_⟩
  case refine_3 =>
    intro g p atts h
    exact runAttempts_barred_rejected atts g p h
  · intro g p i ctx w hc hw
    rcases hh : getHand? g.players p with _ | hand
    · simp [handle_bottle_match_attempt, hh, hc]
    · by_cases hphase : g.phase = Phase.bottle_matching_window
      · simp [handle_bottle_match_attempt, hh, hc, hphase, hw]
      · simp [handle_bottle_match_attempt, hh, hc, hphase]
  · intro g p i hS
    rcases attempt_cases g p i with hA | ⟨_, _, hpre⟩ | ⟨hF, _, _⟩
    · rw [hA] at hS
      exact absurd hS (by simp)
    · exact hpre
    · rw [hF] at hS
      exact absurd hS (by decide)
  · intro g p i hF
    rcases attempt_cases g p i with hA | ⟨hS, _, _⟩ | ⟨_, hctx, hemp, hne⟩
    · rw [hA] at hF
      exact absurd hF (by simp)
    · rw [hS] at hF
      exact absurd hF (by decide)
    · exact ⟨hctx, hemp, hne⟩

/-- A fresh bottle-match window: player 1 cannot match (their card at
index 0 is Bottle 3, window value 5); player 3 can (Bottle 5 at 0). -/
def bmRunGame : Game :=
  { phase := Phase.bottle_matching_window,
    players := [{ pid := 1, hand := [Card.bottle 3, Card.bottle 5],
                  status := PStatus.active, is_ai := false },
                { pid := 2, hand := [Card.bottle 6], status := PStatus.active,
                  is_ai := false },
                { pid := 3, hand := [Card.bottle 5], status := PStatus.active,
                  is_ai := true }],
    deck := [Card.bottle 9, Card.bottle 10], discard_pile := [Card.bottle 5],
    safe := [],
    bottle_match_context := some { discarded_card_value := 5,
                                   triggering_player_id := some 2 },
    current_player_id := some 2 }

/-- C2 witness: a run in which player 1 fails, retries (rejected), and
player 3 then wins. -/
theorem bottle_match_window_invariants_witness :
    ((runAttempts bmRunGame [(1, 0), (1, 1), (3, 0)]).2.count
        AttemptOutcome.success ≤ 1)
    ∧ ((handle_bottle_match_attempt bmRunGame 1 0).2 = AttemptOutcome.failure →
        (∃ ctx, bmRunGame.bottle_match_context = some ctx
          ∧ (handle_bottle_match_attempt bmRunGame 1 0).1.bottle_match_context
            = some { ctx with failed_matchers := ctx.failed_matchers ++ [1] })
        ∧ (bmRunGame.deck = [] →
            (handle_bottle_match_attempt bmRunGame 1 0).1.players
              = bmRunGame.players
            ∧ (handle_bottle_match_attempt bmRunGame 1 0).1.deck = bmRunGame.deck)
        ∧ (bmRunGame.deck ≠ [] →
            (handle_bottle_match_attempt bmRunGame 1 0).1.deck
              = bmRunGame.deck.dropLast
            ∧ (getHand? (handle_bottle_match_attempt bmRunGame 1 0).1.players
                1).map List.length
              = (getHand? bmRunGame.players 1).map (fun h => h.length + 1))) := by
  have h := bottle_match_window_invariants
  exact ⟨h.1 bmRunGame [(1, 0), (1, 1), (3, 0)],
         h.2.2.2.2 bmRunGame 1 0⟩

theorem omertaScored_map_pid (ps : List Player) (caller : Option PlayerId) :
    (omertaScored ps caller).map Player.pid = ps.map Player.pid := by
  unfold omertaScored
  rw [List.map_map]
  refine List.map_congr_left ?_
  intro p _
  rfl

theorem penalizeCaller_map_pid (cid : PlayerId) (l : List Player) :
    (penalizeCaller cid l).map Player.pid = l.map Player.pid := by
  unfold penalizeCaller
  rw [List.map_map]
  refine List.map_congr_left ?_
  intro p _
  by_cases h : p.pid = cid <;> simp [h]

theorem mem_eligibleOf_of_pid (l : List Player) (cid : PlayerId) (p : Player)
    (hmem : p ∈ l) (hpid : p.pid = cid) : p ∈ eligibleOf l (some cid) := by
  unfold eligibleOf
  refine List.mem_filter.mpr ⟨hmem, ?_⟩
  simp [hpid]

theorem eligibleOf_subset (l : List Player) (caller : Option PlayerId) (p : Player)
    (h : p ∈ eligibleOf l caller) : p ∈ l :=
  (List.mem_filter.mp h).1

/-- Two active one-card players tied at 5 points; player 1 calls
Omerta. -/
def tiePlayers : List Player :=
  [{ pid := 1, hand := [Card.bottle 5], status := PStatus.active, is_ai := false },
   { pid := 2, hand := [Card.bottle 5], status := PStatus.active, is_ai := false }]

/-- C1 counterexample: with two eligible players tied at 5 ≤ 7 points,
the caller (first in the participants list) wins the round without any
penalty, although the caller's score is NOT the strict minimum among
scored participants — Python's stable sort puts the caller first among
ties, so "strict minimum" does not describe the code. -/
theorem omerta_tie_caller_wins_counterexample :
    (settle tiePlayers (some 1)).winner = some 1
    ∧ (settle tiePlayers (some 1)).callerPenalized = false
    ∧ calculate_score_for_hand [Card.bottle 5] ≤ OMERTA_THRESHOLD
    ∧ ¬ (∀ p ∈ omertaScored tiePlayers (some 1), p.pid ≠ 1 →
          calculate_score_for_hand [Card.bottle 5] < p.score_this_round) := by
  decide

/-- C1 (amended): in an Omerta settlement whose caller appears among the
participants (hence among the eligible active-or-caller players), the
caller wins without penalty exactly when the caller's entry is the FIRST
minimum of the eligible list under Python's stable sort and the caller's
score is at or below the threshold 7; in particular a caller whose score
is the strict minimum and ≤ 7 always wins, and any winning caller's score
is ≤ 7 and ≤ every eligible score (ties that the caller precedes in
roster order also win, which is weaker than "strict minimum").
Otherwise the caller's recorded score increases by exactly the penalty
20 and the minimum-scoring eligible participant after re-sorting with
the penalty applied wins instead. -/
theorem omerta_settlement_caller_rule (ps : List Player) (cid : PlayerId)
    (c : Player) (hc : c ∈ ps) (hcid : c.pid = cid)
    (hnd : (ps.map Player.pid).Nodup) :
    ((settle ps (some cid)).callerPenalized = false ↔
      (stableMinBy Player.score_this_round
          (eligibleOf (omertaScored ps (some cid)) (some cid))).map Player.pid
        = some cid
      ∧ scoreOf (some cid) c ≤ OMERTA_THRESHOLD)
    ∧ ((∀ p ∈ eligibleOf (omertaScored ps (some cid)) (some cid),
          p.pid ≠ cid → scoreOf (some cid) c < p.score_this_round) →
        scoreOf (some cid) c ≤ OMERTA_THRESHOLD →
        (settle ps (some cid)).winner = some cid
          ∧ (settle ps (some cid)).callerPenalized = false)
    ∧ ((settle ps (some cid)).callerPenalized = false →
        scoreOf (some cid) c ≤ OMERTA_THRESHOLD
        ∧ ∀ p ∈ eligibleOf (omertaScored ps (some cid)) (some cid),
            scoreOf (some cid) c ≤ p.score_this_round)
    ∧ ((settle ps (some cid)).callerPenalized = true →
        (((settle ps (some cid)).players.find? (fun p => p.pid = cid)).map
            Player.score_this_round)
          = some (scoreOf (some cid) c + OMERTA_PENALTY)
        ∧ ∃ w ∈ eligibleOf (settle ps (some cid)).players (some cid),
            (settle ps (some cid)).winner = some w.pid
            ∧ ∀ p ∈ eligibleOf (settle ps (some cid)).players (some cid),
                w.score_this_round ≤ p.score_this_round) := by
  have hcEmem : ({ c with score_this_round := scoreOf (some cid) c } : Player)
      ∈ omertaScored ps (some cid) := List.mem_map_of_mem _ hc
  set cE : Player := { c with score_this_round := scoreOf (some cid) c } with hcEdef
  have hcEpid : cE.pid = cid := hcid
  have hcEscore : cE.score_this_round = scoreOf (some cid) c := rfl
  have hndS : ((omertaScored ps (some cid)).map Player.pid).Nodup := by
    rw [omertaScored_map_pid]; exact hnd
  have hcEelig : cE ∈ eligibleOf (omertaScored ps (some cid)) (some cid) :=
    mem_eligibleOf_of_pid _ _ _ hcEmem hcEpid
  have huniqP : ∀ b ∈ omertaScored ps (some cid), b.pid = cid → b = cE := by
    intro b hb hbp
    exact List.inj_on_of_nodup_map hndS hb hcEmem (by rw [hbp, hcEpid])
  have hany : (eligibleOf (omertaScored ps (some cid)) (some cid)).any
      (fun p => decide (p.pid = cid)) = true :=
    List.any_eq_true.mpr ⟨cE, hcEelig, by simp [hcid]⟩
  have hfind : (omertaScored ps (some cid)).find? (fun p => decide (p.pid = cid))
      = some cE :=
    find?_eq_some_of_unique _ _ cE hcEmem (by simp [hcid])
      (fun b hb hbp => huniqP b hb (of_decide_eq_true hbp))
  obtain ⟨m, hsm⟩ := stableMinBy_isSome Player.score_this_round
    (eligibleOf (omertaScored ps (some cid)) (some cid))
    (by intro h0; rw [h0] at hcEelig; simp at hcEelig)
  by_cases hcond : m.pid = cid ∧ cE.score_this_round ≤ OMERTA_THRESHOLD
  · -- win branch
    have hsettle : settle ps (some cid)
        = { players := omertaScored ps (some cid), winner := some cid,
            callerPenalized := false } := by
      simp only [settle, hany, if_true, hfind, Option.map_some', Option.getD_some, hsm]
      rw [if_pos hcond]
    have hmE : m = cE := huniqP m
      (eligibleOf_subset _ _ m (stableMinBy_mem _ _ m hsm)) hcond.1
    refine ⟨?_, ?_, ?_, ?_⟩
    · rw [hsettle]
      simp only [true_iff]
      exact ⟨by rw [hsm]; simp [hcond.1], hcond.2⟩
    · intro _ _
      rw [hsettle]
      exact ⟨rfl, rfl⟩
    · intro _
      refine ⟨hcond.2, ?_⟩
      intro p hp
      have := stableMinBy_le Player.score_this_round _ m hsm p hp
      rw [hmE, hcEscore] at this
      exact this
    · intro habs
      rw [hsettle] at habs
      exact absurd habs (by simp)
  · -- penalty branch
    have hsettle : settle ps (some cid)
        = { players := penalizeCaller cid (omertaScored ps (some cid)),
            winner := (stableMinBy Player.score_this_round
                (eligibleOf (penalizeCaller cid (omertaScored ps (some cid)))
                  (some cid))).map Player.pid,
            callerPenalized := true } := by
      simp only [settle, hany, if_true, hfind, Option.map_some', Option.getD_some, hsm]
      rw [if_neg hcond]
    have hcE' : ({ cE with
        score_this_round := cE.score_this_round + OMERTA_PENALTY } : Player)
        ∈ penalizeCaller cid (omertaScored ps (some cid)) := by
      unfold penalizeCaller
      refine List.mem_map.mpr ⟨cE, hcEmem, ?_⟩
      rw [if_pos hcEpid]
    set cP : Player :=
      { cE with score_this_round := cE.score_this_round + OMERTA_PENALTY }
      with hcPdef
    have hcPpid : cP.pid = cid := hcEpid
    have hndP : ((penalizeCaller cid (omertaScored ps (some cid))).map
        Player.pid).Nodup := by
      rw [penalizeCaller_map_pid]; exact hndS
    have huniqP' : ∀ b ∈ penalizeCaller cid (omertaScored ps (some cid)),
        b.pid = cid → b = cP := by
      intro b hb hbp
      exact List.inj_on_of_nodup_map hndP hb hcE' (by rw [hbp, hcPpid])
    have hcPelig : cP ∈ eligibleOf
        (penalizeCaller cid (omertaScored ps (some cid))) (some cid) :=
      mem_eligibleOf_of_pid _ _ _ hcE' hcPpid
    obtain ⟨w, hsw⟩ := stableMinBy_isSome Player.score_this_round
      (eligibleOf (penalizeCaller cid (omertaScored ps (some cid))) (some cid))
      (by intro h0; rw [h0] at hcPelig; simp at hcPelig)
    refine ⟨?_, ?_, ?_, ?_⟩
    · rw [hsettle]
      constructor
      · intro habs
        exact absurd habs (by simp)
      · rintro ⟨hwin, hthr⟩
        rw [hsm] at hwin
        simp only [Option.map_some', Option.some.injEq] at hwin
        exact (hcond ⟨hwin, hthr⟩).elim
    · intro hstrict hthr
      exfalso
      have hmin : stableMinBy Player.score_this_round
          (eligibleOf (omertaScored ps (some cid)) (some cid)) = some cE := by
        refine stableMinBy_strict _ _ cE hcEelig ?_
        intro y hy hyne
        by_cases hyp : y.pid = cid
        · exact absurd (huniqP y (eligibleOf_subset _ _ y hy) hyp) hyne
        · have := hstrict y hy hyp
          rw [hcEscore]
          exact this
      rw [hmin] at hsm
      have : m = cE := by injection hsm.symm
      exact hcond ⟨by rw [this]; exact hcEpid, hthr⟩
    · intro habs
      rw [hsettle] at habs
      exact absurd habs (by simp)
    · intro _
      constructor
      · rw [hsettle]
        have hfind' : (penalizeCaller cid (omertaScored ps (some cid))).find?
            (fun p => decide (p.pid = cid)) = some cP :=
          find?_eq_some_of_unique _ _ cP hcE' (by simp [hcid])
            (fun b hb hbp => huniqP' b hb (of_decide_eq_true hbp))
        simp only [hfind', Option.map_some']
      · refine ⟨w, ?_, ?_, ?_⟩
        · rw [hsettle]
          exact hsw.symm ▸ stableMinBy_mem _ _ w hsw
        · rw [hsettle]
          simp only [hsw, Option.map_some']
        · intro p hp
          rw [hsettle] at hp
          exact stableMinBy_le _ _ w hsw p hp

/-- Three active players with distinct scores 5, 17, 20; player 1 is the
strict minimum and under the threshold. -/
def strictMinPlayers : List Player :=
  [{ pid := 1, hand := [Card.bottle 2, Card.bottle 3], status := PStatus.active,
     is_ai := false },
   { pid := 2, hand := [Card.bottle 9, Card.bottle 8], status := PStatus.active,
     is_ai := false },
   { pid := 3, hand := [Card.character "The Snitch" 20], status := PStatus.active,
     is_ai := true }]

/-- C1 witness: a strict-minimum caller at or below the threshold wins
without penalty. -/
theorem omerta_settlement_caller_rule_witness :
    (settle strictMinPlayers (some 1)).winner = some 1
    ∧ (settle strictMinPlayers (some 1)).callerPenalized = false := by
  have h := omerta_settlement_caller_rule strictMinPlayers 1
    ⟨1, [Card.bottle 2, Card.bottle 3], PStatus.active, false, 0⟩
    (by decide) rfl (by decide)
  exact h.2.1 (by decide) (by decide)

theorem get!_pos (l : List Card) (i : Nat) (h : i < l.length) :
    l.get! i = l.get ⟨i, h⟩ := by
  induction l generalizing i with
  | nil => simp at h
  | cons c cs ih =>
    cases i with
    | zero => rfl
    | succ i => exact ih i (by simpa using h)

/-- Popping the deck's top card into a player's hand preserves the
deck+hands multiset. -/
theorem conserve_draw_to_hand (deck : List Card) (ps : List Player)
    (pid : PlayerId) (hand : List Card) (hh : getHand? ps pid = some hand)
    (hd : deck ≠ []) :
    ((deck.dropLast : List Card) : Multiset Card)
      + handsCards (updateFirstHand ps pid (fun h => h ++ [deck.getLast hd]))
      = (deck : Multiset Card) + handsCards ps := by
  have h1 := multiset_getLast_dropLast deck hd
  have h2 := handsCards_updateFirstHand ps pid
    (fun h => h ++ [deck.getLast hd]) hand hh
  have h3 : ((hand ++ [deck.getLast hd] : List Card) : Multiset Card)
      = (hand : Multiset Card) + {deck.getLast hd} :=
    (Multiset.coe_add hand [deck.getLast hd]).symm
  apply add_right_cancel (b := (hand : Multiset Card))
  calc ((deck.dropLast : List Card) : Multiset Card)
        + handsCards (updateFirstHand ps pid (fun h => h ++ [deck.getLast hd]))
        + (hand : Multiset Card)
      = ((deck.dropLast : List Card) : Multiset Card)
          + (handsCards (updateFirstHand ps pid
              (fun h => h ++ [deck.getLast hd])) + (hand : Multiset Card)) := by
        abel
    _ = ((deck.dropLast : List Card) : Multiset Card)
          + (handsCards ps
            + ((hand ++ [deck.getLast hd] : List Card) : Multiset Card)) := by
        rw [h2]
    _ = ((deck.dropLast : List Card) : Multiset Card)
          + (handsCards ps + ((hand : Multiset Card) + {deck.getLast hd})) := by
        rw [h3]
    _ = (((deck.dropLast : List Card) : Multiset Card) + {deck.getLast hd})
          + (handsCards ps + (hand : Multiset Card)) := by
        abel
    _ = (deck : Multiset Card) + (handsCards ps + (hand : Multiset Card)) := by
        rw [h1]
    _ = (deck : Multiset Card) + handsCards ps + (hand : Multiset Card) := by
        abel

theorem sum4_congr {a a' b b' c d : Multiset Card} (h : a + b = a' + b') :
    a + b + c + d = a' + b' + c + d := by
  rw [h]

/-- Replacing hand position `idx` with the deck's top card and moving the
old card onto the discard pile preserves deck+hands+discard. -/
theorem conserve_replace_from_deck (deck : List Card) (ps : List Player)
    (pid : PlayerId) (hand : List Card) (disc : List Card) (idx : Nat)
    (hh : getHand? ps pid = some hand) (hd : deck ≠ []) (hi : idx < hand.length) :
    ((deck.dropLast : List Card) : Multiset Card)
      + handsCards (updateFirstHand ps pid (fun h => h.set idx (deck.getLast hd)))
      + ((disc ++ [hand.get! idx] : List Card) : Multiset Card)
      = (deck : Multiset Card) + handsCards ps + (disc : Multiset Card) := by
  have h1 := multiset_getLast_dropLast deck hd
  have h2 := handsCards_updateFirstHand ps pid
    (fun h => h.set idx (deck.getLast hd)) hand hh
  have h3 := multiset_set hand idx (deck.getLast hd) hi
  have h4 : ((disc ++ [hand.get! idx] : List Card) : Multiset Card)
      = (disc : Multiset Card) + {hand.get! idx} :=
    (Multiset.coe_add disc [hand.get! idx]).symm
  rw [h4]
  apply add_right_cancel (b := (hand : Multiset Card) + {deck.getLast hd})
  calc ((deck.dropLast : List Card) : Multiset Card)
        + handsCards (updateFirstHand ps pid
            (fun h => h.set idx (deck.getLast hd)))
        + ((disc : Multiset Card) + {hand.get! idx})
        + ((hand : Multiset Card) + {deck.getLast hd})
      = ((deck.dropLast : List Card) : Multiset Card) + {deck.getLast hd}
          + (handsCards (updateFirstHand ps pid
              (fun h => h.set idx (deck.getLast hd))) + (hand : Multiset Card))
          + (disc : Multiset Card) + {hand.get! idx} := by abel
    _ = (deck : Multiset Card)
          + (handsCards ps
            + ((hand.set idx (deck.getLast hd) : List Card) : Multiset Card))
          + (disc : Multiset Card) + {hand.get! idx} := by rw [h1, h2]
    _ = (deck : Multiset Card) + handsCards ps + (disc : Multiset Card)
          + (((hand.set idx (deck.getLast hd) : List Card) : Multiset Card)
            + {hand.get! idx}) := by abel
    _ = (deck : Multiset Card) + handsCards ps + (disc : Multiset Card)
          + ((hand : Multiset Card) + {deck.getLast hd}) := by rw [h3]

/-- Moving a matched hand card onto the discard pile preserves
hands+discard. -/
theorem conserve_match_discard (ps : List Player) (pid : PlayerId)
    (hand disc : List Card) (i : Nat) (hh : getHand? ps pid = some hand)
    (hi : i < hand.length) :
    handsCards (updateFirstHand ps pid (fun hd => hd.eraseIdx i))
      + ((disc ++ [hand.get ⟨i, hi⟩] : List Card) : Multiset Card)
      = handsCards ps + (disc : Multiset Card) := by
  have h2 := handsCards_updateFirstHand ps pid (fun hd => hd.eraseIdx i) hand hh
  have h3 := multiset_eraseIdx hand i hi
  rw [get!_pos hand i hi] at h3
  have h4 : ((disc ++ [hand.get ⟨i, hi⟩] : List Card) : Multiset Card)
      = (disc : Multiset Card) + {hand.get ⟨i, hi⟩} :=
    (Multiset.coe_add disc [hand.get ⟨i, hi⟩]).symm
  rw [h4]
  apply add_right_cancel (b := (hand : Multiset Card))
  calc handsCards (updateFirstHand ps pid (fun hd => hd.eraseIdx i))
        + ((disc : Multiset Card) + {hand.get ⟨i, hi⟩}) + (hand : Multiset Card)
      = (handsCards (updateFirstHand ps pid (fun hd => hd.eraseIdx i))
          + (hand : Multiset Card))
          + (disc : Multiset Card) + {hand.get ⟨i, hi⟩} := by abel
    _ = (handsCards ps + ((hand.eraseIdx i : List Card) : Multiset Card))
          + (disc : Multiset Card) + {hand.get ⟨i, hi⟩} := by rw [h2]
    _ = handsCards ps + (disc : Multiset Card)
          + (((hand.eraseIdx i : List Card) : Multiset Card)
            + {hand.get ⟨i, hi⟩}) := by abel
    _ = handsCards ps + (disc : Multiset Card) + (hand : Multiset Card) := by
        rw [h3]

/-- Taking the discard top into the hand and discarding the replaced card
preserves hands+discard. -/
theorem conserve_replace_from_discard (ps : List Player) (pid : PlayerId)
    (hand disc : List Card) (idx : Nat) (hh : getHand? ps pid = some hand)
    (hne : disc ≠ []) (hi : idx < hand.length) :
    handsCards (updateFirstHand ps pid (fun h => h.set idx (disc.getLast hne)))
      + ((disc.dropLast ++ [hand.get! idx] : List Card) : Multiset Card)
      = handsCards ps + (disc : Multiset Card) := by
  have h1 := multiset_getLast_dropLast disc hne
  have h2 := handsCards_updateFirstHand ps pid
    (fun h => h.set idx (disc.getLast hne)) hand hh
  have h3 := multiset_set hand idx (disc.getLast hne) hi
  have h4 : ((disc.dropLast ++ [hand.get! idx] : List Card) : Multiset Card)
      = ((disc.dropLast : List Card) : Multiset Card) + {hand.get! idx} :=
    (Multiset.coe_add disc.dropLast [hand.get! idx]).symm
  rw [h4]
  apply add_right_cancel (b := (hand : Multiset Card) + {disc.getLast hne})
  calc handsCards (updateFirstHand ps pid
          (fun h => h.set idx (disc.getLast hne)))
        + (((disc.dropLast : List Card) : Multiset Card) + {hand.get! idx})
        + ((hand : Multiset Card) + {disc.getLast hne})
      = (handsCards (updateFirstHand ps pid
            (fun h => h.set idx (disc.getLast hne))) + (hand : Multiset Card))
          + (((disc.dropLast : List Card) : Multiset Card) + {disc.getLast hne})
          + {hand.get! idx} := by abel
    _ = (handsCards ps
          + ((hand.set idx (disc.getLast hne) : List Card) : Multiset Card))
          + (disc : Multiset Card) + {hand.get! idx} := by rw [h1, h2]
    _ = handsCards ps + (disc : Multiset Card)
          + (((hand.set idx (disc.getLast hne) : List Card) : Multiset Card)
            + {hand.get! idx}) := by abel
    _ = handsCards ps + (disc : Multiset Card)
          + ((hand : Multiset Card) + {disc.getLast hne}) := by rw [h3]

theorem replace_from_deck_conserves (g : Game) (pid : PlayerId) (idx : Nat) :
    totalCards (replace_from_deck g pid idx) = totalCards g := by
  rcases hh : getHand? g.players pid with _ | hand
  · simp [replace_from_deck, hh]
  · by_cases hd : g.deck = []
    · simp [replace_from_deck, hh, hd]
    · by_cases hi : idx < hand.length
      · have hred : replace_from_deck g pid idx =
            { g with
                deck := g.deck.dropLast,
                players := updateFirstHand g.players pid
                  (fun h => h.set idx (g.deck.getLast hd)),
                discard_pile := g.discard_pile ++ [hand.get! idx] } := by
          simp [replace_from_deck, hh, hd, hi]
        rw [hred]
        show ((g.deck.dropLast : List Card) : Multiset Card)
            + handsCards (updateFirstHand g.players pid
                (fun h => h.set idx (g.deck.getLast hd)))
            + ((g.discard_pile ++ [hand.get! idx] : List Card) : Multiset Card)
            + (g.safe : Multiset Card)
          = (g.deck : Multiset Card) + handsCards g.players
            + (g.discard_pile : Multiset Card) + (g.safe : Multiset Card)
        rw [conserve_replace_from_deck g.deck g.players pid hand g.discard_pile
          idx hh hd hi]
      · simp [replace_from_deck, hh, hd, hi]

theorem replace_from_discard_conserves (g : Game) (pid : PlayerId) (idx : Nat) :
    totalCards (replace_from_discard g pid idx) = totalCards g := by
  rcases hh : getHand? g.players pid with _ | hand
  · simp [replace_from_discard, hh]
  · by_cases hd : g.discard_pile = []
    · simp [replace_from_discard, hh, hd]
    · by_cases hok : ((g.discard_pile.getLast hd).isBottle = true ∨
          (g.discard_pile.getLast hd).cardName = "The Alibi")
      · by_cases hi : idx < hand.length
        · have hred : replace_from_discard g pid idx =
              { g with
                  discard_pile := g.discard_pile.dropLast ++ [hand.get! idx],
                  players := updateFirstHand g.players pid
                    (fun h => h.set idx (g.discard_pile.getLast hd)) } := by
            simp [replace_from_discard, hh, hd, hok, hi]
          rw [hred]
          show (g.deck : Multiset Card)
              + handsCards (updateFirstHand g.players pid
                  (fun h => h.set idx (g.discard_pile.getLast hd)))
              + ((g.discard_pile.dropLast ++ [hand.get! idx] : List Card) :
                  Multiset Card)
              + (g.safe : Multiset Card)
            = (g.deck : Multiset Card) + handsCards g.players
              + (g.discard_pile : Multiset Card) + (g.safe : Multiset Card)
          have hk := conserve_replace_from_discard g.players pid hand
            g.discard_pile idx hh hd hi
          calc (g.deck : Multiset Card)
                + handsCards (updateFirstHand g.players pid
                    (fun h => h.set idx (g.discard_pile.getLast hd)))
                + ((g.discard_pile.dropLast ++ [hand.get! idx] : List Card) :
                    Multiset Card)
                + (g.safe : Multiset Card)
              = (g.deck : Multiset Card)
                  + (handsCards (updateFirstHand g.players pid
                      (fun h => h.set idx (g.discard_pile.getLast hd)))
                    + ((g.discard_pile.dropLast ++ [hand.get! idx] : List Card) :
                        Multiset Card))
                  + (g.safe : Multiset Card) := by abel
            _ = (g.deck : Multiset Card)
                  + (handsCards g.players + (g.discard_pile : Multiset Card))
                  + (g.safe : Multiset Card) := by rw [hk]
            _ = (g.deck : Multiset Card) + handsCards g.players
                  + (g.discard_pile : Multiset Card) + (g.safe : Multiset Card) := by
                abel
        · simp [replace_from_discard, hh, hd, hok, hi]
      · simp [replace_from_discard, hh, hd, hok]

theorem coe_cons_card (a : Card) (l : List Card) :
    ((a :: l : List Card) : Multiset Card) = (l : Multiset Card) + {a} := by
  rw [← Multiset.cons_coe, ← Multiset.singleton_add]
  exact add_comm _ _

theorem snitch_give_loop_conserves (ts : List PlayerId) (g : Game) :
    totalCards (snitch_give_loop g ts) = totalCards g := by
  induction ts generalizing g with
  | nil => rfl
  | cons t rest ih =>
    rcases hh : getHand? g.players t with _ | hand
    · have hred : snitch_give_loop g (t :: rest) = snitch_give_loop g rest := by
        simp [snitch_give_loop, hh]
      rw [hred]
      exact ih g
    · by_cases hd : g.deck = []
      · have hred : snitch_give_loop g (t :: rest) = g := by
          simp [snitch_give_loop, hh, hd]
        rw [hred]
      · have hred : snitch_give_loop g (t :: rest) =
            snitch_give_loop
              { g with
                  deck := g.deck.dropLast,
                  players := updateFirstHand g.players t
                    (fun h => h ++ [g.deck.getLast hd]) } rest := by
          simp [snitch_give_loop, hh, hd]
        rw [hred, ih]
        show ((g.deck.dropLast : List Card) : Multiset Card)
            + handsCards (updateFirstHand g.players t
                (fun h => h ++ [g.deck.getLast hd]))
            + (g.discard_pile : Multiset Card) + (g.safe : Multiset Card)
          = (g.deck : Multiset Card) + handsCards g.players
            + (g.discard_pile : Multiset Card) + (g.safe : Multiset Card)
        exact sum4_congr (conserve_draw_to_hand g.deck g.players t hand hh hd)

theorem driver_pop_loop_conserves (idxs : List Nat) (hand : List Card) :
    ((driver_pop_loop idxs hand).1 : Multiset Card)
      + ((driver_pop_loop idxs hand).2.1 : Multiset Card)
      + ((driver_pop_loop idxs hand).2.2 : Multiset Card)
      = (hand : Multiset Card) := by
  induction idxs generalizing hand with
  | nil => simp [driver_pop_loop]
  | cons idx rest ih =>
    by_cases hi : idx < hand.length
    · by_cases hb : (hand.get! idx).isBottle = true
      · have hb' : hand[idx]!.isBottle = true := by simpa using hb
        have hred : driver_pop_loop (idx :: rest) hand =
            ((driver_pop_loop rest (hand.eraseIdx idx)).1,
             hand.get! idx :: (driver_pop_loop rest (hand.eraseIdx idx)).2.1,
             (driver_pop_loop rest (hand.eraseIdx idx)).2.2) := by
          simp [driver_pop_loop, hi, hb']
        rw [hred]
        show ((driver_pop_loop rest (hand.eraseIdx idx)).1 : Multiset Card)
            + ((hand.get! idx :: (driver_pop_loop rest (hand.eraseIdx idx)).2.1 :
                List Card) : Multiset Card)
            + ((driver_pop_loop rest (hand.eraseIdx idx)).2.2 : Multiset Card)
          = (hand : Multiset Card)
        rw [coe_cons_card]
        calc ((driver_pop_loop rest (hand.eraseIdx idx)).1 : Multiset Card)
              + (((driver_pop_loop rest (hand.eraseIdx idx)).2.1 : Multiset Card)
                + {hand.get! idx})
              + ((driver_pop_loop rest (hand.eraseIdx idx)).2.2 : Multiset Card)
            = (((driver_pop_loop rest (hand.eraseIdx idx)).1 : Multiset Card)
                + ((driver_pop_loop rest (hand.eraseIdx idx)).2.1 : Multiset Card)
                + ((driver_pop_loop rest (hand.eraseIdx idx)).2.2 : Multiset Card))
              + {hand.get! idx} := by abel
          _ = ((hand.eraseIdx idx : List Card) : Multiset Card)
              + {hand.get! idx} := by rw [ih]
          _ = (hand : Multiset Card) := multiset_eraseIdx hand idx hi
      · have hb' : ¬ hand[idx]!.isBottle = true := by simpa using hb
        have hred : driver_pop_loop (idx :: rest) hand =
            ((driver_pop_loop rest (hand.eraseIdx idx)).1,
             (driver_pop_loop rest (hand.eraseIdx idx)).2.1,
             hand.get! idx :: (driver_pop_loop rest (hand.eraseIdx idx)).2.2) := by
          simp [driver_pop_loop, hi, hb']
        rw [hred]
        show ((driver_pop_loop rest (hand.eraseIdx idx)).1 : Multiset Card)
            + ((driver_pop_loop rest (hand.eraseIdx idx)).2.1 : Multiset Card)
            + ((hand.get! idx :: (driver_pop_loop rest (hand.eraseIdx idx)).2.2 :
                List Card) : Multiset Card)
          = (hand : Multiset Card)
        rw [coe_cons_card]
        calc ((driver_pop_loop rest (hand.eraseIdx idx)).1 : Multiset Card)
              + ((driver_pop_loop rest (hand.eraseIdx idx)).2.1 : Multiset Card)
              + (((driver_pop_loop rest (hand.eraseIdx idx)).2.2 : Multiset Card)
                + {hand.get! idx})
            = (((driver_pop_loop rest (hand.eraseIdx idx)).1 : Multiset Card)
                + ((driver_pop_loop rest (hand.eraseIdx idx)).2.1 : Multiset Card)
                + ((driver_pop_loop rest (hand.eraseIdx idx)).2.2 : Multiset Card))
              + {hand.get! idx} := by abel
          _ = ((hand.eraseIdx idx : List Card) : Multiset Card)
              + {hand.get! idx} := by rw [ih]
          _ = (hand : Multiset Card) := multiset_eraseIdx hand idx hi
    · have hred : driver_pop_loop (idx :: rest) hand =
          driver_pop_loop rest hand := by
        simp [driver_pop_loop, hi]
      rw [hred]
      exact ih hand

theorem driver_penalty_loop_conserves (n : Nat) (g : Game) (pid : PlayerId)
    (hand : List Card) (hh : getHand? g.players pid = some hand) :
    totalCards (driver_penalty_loop n g pid) = totalCards g := by
  induction n generalizing g hand with
  | zero => rfl
  | succ n ih =>
    by_cases hd : g.deck = []
    · have hred : driver_penalty_loop (n + 1) g pid = g := by
        simp [driver_penalty_loop, hd]
      rw [hred]
    · have hred : driver_penalty_loop (n + 1) g pid =
          driver_penalty_loop n
            { g with
                deck := g.deck.dropLast,
                players := updateFirstHand g.players pid
                  (fun h => h ++ [g.deck.getLast hd]) } pid := by
        simp [driver_penalty_loop, hd]
      rw [hred]
      have hh' : getHand? (updateFirstHand g.players pid
          (fun h => h ++ [g.deck.getLast hd])) pid
          = some (hand ++ [g.deck.getLast hd]) := by
        rw [getHand?_updateFirstHand, hh]
        rfl
      rw [ih { g with
          deck := g.deck.dropLast,
          players := updateFirstHand g.players pid
            (fun h => h ++ [g.deck.getLast hd]) }
        (hand ++ [g.deck.getLast hd]) hh']
      show ((g.deck.dropLast : List Card) : Multiset Card)
          + handsCards (updateFirstHand g.players pid
              (fun h => h ++ [g.deck.getLast hd]))
          + (g.discard_pile : Multiset Card) + (g.safe : Multiset Card)
        = (g.deck : Multiset Card) + handsCards g.players
          + (g.discard_pile : Multiset Card) + (g.safe : Multiset Card)
      exact sum4_congr (conserve_draw_to_hand g.deck g.players pid hand hh hd)

/-- Core of the Driver conservation: discarding `r21` onto the pile,
replacing the hand with any multiset-equal recombination of the kept and
returned cards, and then running penalty draws preserves the total. -/
theorem driver_core_conserves (g : Game) (pid : PlayerId)
    (hand r1 r21 r22 newhand : List Card) (n : Nat)
    (hh : getHand? g.players pid = some hand)
    (hr : (r1 : Multiset Card) + (r21 : Multiset Card) + (r22 : Multiset Card)
      = (hand : Multiset Card))
    (hnh : (newhand : Multiset Card)
      = (r1 : Multiset Card) + (r22 : Multiset Card)) :
    totalCards
      (driver_penalty_loop n
        { g with
            players := updateFirstHand g.players pid (fun _ => newhand),
            discard_pile := g.discard_pile ++ r21 } pid)
      = totalCards g := by
  have hh' : getHand? (updateFirstHand g.players pid (fun _ => newhand)) pid
      = some newhand := by
    rw [getHand?_updateFirstHand, hh]
    rfl
  rw [driver_penalty_loop_conserves n
    { g with
        players := updateFirstHand g.players pid (fun _ => newhand),
        discard_pile := g.discard_pile ++ r21 } pid newhand hh']
  show (g.deck : Multiset Card)
      + handsCards (updateFirstHand g.players pid (fun _ => newhand))
      + ((g.discard_pile ++ r21 : List Card) : Multiset Card)
      + (g.safe : Multiset Card)
    = (g.deck : Multiset Card) + handsCards g.players
      + (g.discard_pile : Multiset Card) + (g.safe : Multiset Card)
  have h2 : handsCards (updateFirstHand g.players pid (fun _ => newhand))
      + (hand : Multiset Card)
      = handsCards g.players + (newhand : Multiset Card) :=
    handsCards_updateFirstHand g.players pid (fun _ => newhand) hand hh
  have h4 : ((g.discard_pile ++ r21 : List Card) : Multiset Card)
      = (g.discard_pile : Multiset Card) + (r21 : Multiset Card) :=
    (Multiset.coe_add g.discard_pile r21).symm
  have hr' : (r1 : Multiset Card) + (r22 : Multiset Card)
      + (r21 : Multiset Card) = (hand : Multiset Card) := by
    rw [← hr]
    abel
  apply add_right_cancel (b := (hand : Multiset Card))
  calc (g.deck : Multiset Card)
        + handsCards (updateFirstHand g.players pid (fun _ => newhand))
        + ((g.discard_pile ++ r21 : List Card) : Multiset Card)
        + (g.safe : Multiset Card) + (hand : Multiset Card)
      = (handsCards (updateFirstHand g.players pid (fun _ => newhand))
          + (hand : Multiset Card))
        + (g.deck : Multiset Card)
        + ((g.discard_pile ++ r21 : List Card) : Multiset Card)
        + (g.safe : Multiset Card) := by abel
    _ = (handsCards g.players + (newhand : Multiset Card))
        + (g.deck : Multiset Card)
        + ((g.discard_pile : Multiset Card) + (r21 : Multiset Card))
        + (g.safe : Multiset Card) := by rw [h2, h4]
    _ = (handsCards g.players
          + ((r1 : Multiset Card) + (r22 : Multiset Card)))
        + (g.deck : Multiset Card)
        + ((g.discard_pile : Multiset Card) + (r21 : Multiset Card))
        + (g.safe : Multiset Card) := by rw [hnh]
    _ = (g.deck : Multiset Card) + handsCards g.players
        + (g.discard_pile : Multiset Card) + (g.safe : Multiset Card)
        + ((r1 : Multiset Card) + (r22 : Multiset Card)
          + (r21 : Multiset Card)) := by abel
    _ = (g.deck : Multiset Card) + handsCards g.players
        + (g.discard_pile : Multiset Card) + (g.safe : Multiset Card)
        + (hand : Multiset Card) := by rw [hr']

theorem execute_the_driver_ability_conserves (g : Game) (pid : PlayerId)
    (idxs : List Nat) (shuffled : List Card) :
    totalCards (execute_the_driver_ability g pid idxs shuffled) = totalCards g := by
  rcases hh : getHand? g.players pid with _ | hand
  · simp [execute_the_driver_ability, hh]
  · have hpop := driver_pop_loop_conserves
      (idxs.mergeSort (fun a b => b ≤ a)) hand
    have hnh : ((if (driver_pop_loop (idxs.mergeSort (fun a b => b ≤ a)) hand).2.2 ≠ [] ∧
          shuffled.Perm ((driver_pop_loop (idxs.mergeSort (fun a b => b ≤ a)) hand).1
            ++ (driver_pop_loop (idxs.mergeSort (fun a b => b ≤ a)) hand).2.2)
        then shuffled
        else (driver_pop_loop (idxs.mergeSort (fun a b => b ≤ a)) hand).1
          ++ (driver_pop_loop (idxs.mergeSort (fun a b => b ≤ a)) hand).2.2 :
          List Card) : Multiset Card)
        = ((driver_pop_loop (idxs.mergeSort (fun a b => b ≤ a)) hand).1 :
            Multiset Card)
          + ((driver_pop_loop (idxs.mergeSort (fun a b => b ≤ a)) hand).2.2 :
              Multiset Card) := by
      by_cases hc : (driver_pop_loop (idxs.mergeSort (fun a b => b ≤ a)) hand).2.2 ≠ [] ∧
          shuffled.Perm ((driver_pop_loop (idxs.mergeSort (fun a b => b ≤ a)) hand).1
            ++ (driver_pop_loop (idxs.mergeSort (fun a b => b ≤ a)) hand).2.2)
      · rw [if_pos hc, Multiset.coe_eq_coe.mpr hc.2]
        exact (Multiset.coe_add _ _).symm
      · rw [if_neg hc]
        exact (Multiset.coe_add _ _).symm
    have hred : execute_the_driver_ability g pid idxs shuffled =
        driver_penalty_loop
          (driver_pop_loop (idxs.mergeSort (fun a b => b ≤ a)) hand).2.2.length
          { g with
              players := updateFirstHand g.players pid (fun _ =>
                if (driver_pop_loop (idxs.mergeSort (fun a b => b ≤ a)) hand).2.2 ≠ [] ∧
                    shuffled.Perm ((driver_pop_loop (idxs.mergeSort (fun a b => b ≤ a)) hand).1
                      ++ (driver_pop_loop (idxs.mergeSort (fun a b => b ≤ a)) hand).2.2)
                then shuffled
                else (driver_pop_loop (idxs.mergeSort (fun a b => b ≤ a)) hand).1
                  ++ (driver_pop_loop (idxs.mergeSort (fun a b => b ≤ a)) hand).2.2),
              discard_pile := g.discard_pile
                ++ (driver_pop_loop (idxs.mergeSort (fun a b => b ≤ a)) hand).2.1 }
          pid := by
      simp only [execute_the_driver_ability, hh]
    rw [hred]
    exact driver_core_conserves g pid hand
      (driver_pop_loop (idxs.mergeSort (fun a b => b ≤ a)) hand).1
      (driver_pop_loop (idxs.mergeSort (fun a b => b ≤ a)) hand).2.1
      (driver_pop_loop (idxs.mergeSort (fun a b => b ≤ a)) hand).2.2
      _ _ hh hpop hnh

theorem execute_safecracker_exchange_conserves (g : Game) (pid : PlayerId)
    (sIdx hIdx : Nat) :
    totalCards (execute_safecracker_exchange g pid sIdx hIdx) = totalCards g := by
  rcases hh : getHand? g.players pid with _ | hand
  · simp [execute_safecracker_exchange, hh]
  · by_cases hc : hand ≠ [] ∧ g.safe ≠ [] ∧ hIdx < hand.length ∧
        sIdx < g.safe.length
    · have hred : execute_safecracker_exchange g pid sIdx hIdx =
          { g with
              players := updateFirstHand g.players pid
                (fun h => h.set hIdx (g.safe.get! sIdx)),
              safe := g.safe.set sIdx (hand.get! hIdx) } := by
        simp [execute_safecracker_exchange, hh, hc]
      rw [hred]
      show (g.deck : Multiset Card)
          + handsCards (updateFirstHand g.players pid
              (fun h => h.set hIdx (g.safe.get! sIdx)))
          + (g.discard_pile : Multiset Card)
          + ((g.safe.set sIdx (hand.get! hIdx) : List Card) : Multiset Card)
        = (g.deck : Multiset Card) + handsCards g.players
          + (g.discard_pile : Multiset Card) + (g.safe : Multiset Card)
      have h2 := handsCards_updateFirstHand g.players pid
        (fun h => h.set hIdx (g.safe.get! sIdx)) hand hh
      have h3 := multiset_set hand hIdx (g.safe.get! sIdx) hc.2.2.1
      have h4 := multiset_set g.safe sIdx (hand.get! hIdx) hc.2.2.2
      apply add_right_cancel (b := (hand : Multiset Card)
        + {hand.get! hIdx} + {g.safe.get! sIdx})
      calc (g.deck : Multiset Card)
            + handsCards (updateFirstHand g.players pid
                (fun h => h.set hIdx (g.safe.get! sIdx)))
            + (g.discard_pile : Multiset Card)
            + ((g.safe.set sIdx (hand.get! hIdx) : List Card) : Multiset Card)
            + ((hand : Multiset Card)
              + {hand.get! hIdx} + {g.safe.get! sIdx})
          = (handsCards (updateFirstHand g.players pid
                (fun h => h.set hIdx (g.safe.get! sIdx)))
              + (hand : Multiset Card))
            + (((g.safe.set sIdx (hand.get! hIdx) : List Card) : Multiset Card)
              + {g.safe.get! sIdx})
            + (g.deck : Multiset Card) + (g.discard_pile : Multiset Card)
            + {hand.get! hIdx} := by abel
        _ = (handsCards g.players
              + ((hand.set hIdx (g.safe.get! sIdx) : List Card) : Multiset Card))
            + ((g.safe : Multiset Card) + {hand.get! hIdx})
            + (g.deck : Multiset Card) + (g.discard_pile : Multiset Card)
            + {hand.get! hIdx} := by rw [h2, h4]
        _ = (g.deck : Multiset Card) + handsCards g.players
            + (g.discard_pile : Multiset Card) + (g.safe : Multiset Card)
            + (((hand.set hIdx (g.safe.get! sIdx) : List Card) : Multiset Card)
              + {hand.get! hIdx})
            + {hand.get! hIdx} := by abel
        _ = (g.deck : Multiset Card) + handsCards g.players
            + (g.discard_pile : Multiset Card) + (g.safe : Multiset Card)
            + ((hand : Multiset Card) + {g.safe.get! sIdx})
            + {hand.get! hIdx} := by rw [h3]
        _ = (g.deck : Multiset Card) + handsCards g.players
            + (g.discard_pile : Multiset Card) + (g.safe : Multiset Card)
            + ((hand : Multiset Card)
              + {hand.get! hIdx} + {g.safe.get! sIdx}) := by abel
    · simp [execute_safecracker_exchange, hh, hc]

/-- Replacing an empty deck with any reordering of the discard pile minus
its top card, keeping only the top card on the pile, preserves the
total. -/
theorem conserve_reshuffle_core (g : Game) (d : List Card)
    (hdm : (d : Multiset Card)
      = ((g.discard_pile.dropLast : List Card) : Multiset Card))
    (hne : g.discard_pile ≠ []) (hdeck : g.deck = []) :
    totalCards
      { g with
          deck := d,
          discard_pile := [g.discard_pile.getLast hne] } = totalCards g := by
  show (d : Multiset Card) + handsCards g.players
      + (([g.discard_pile.getLast hne] : List Card) : Multiset Card)
      + (g.safe : Multiset Card)
    = (g.deck : Multiset Card) + handsCards g.players
      + (g.discard_pile : Multiset Card) + (g.safe : Multiset Card)
  have h2 := multiset_getLast_dropLast g.discard_pile hne
  have h5 : ((g.deck : List Card) : Multiset Card) = 0 := by
    rw [hdeck]
    rfl
  have h6 : (([g.discard_pile.getLast hne] : List Card) : Multiset Card)
      = ({g.discard_pile.getLast hne} : Multiset Card) := rfl
  rw [hdm, h5, h6]
  calc ((g.discard_pile.dropLast : List Card) : Multiset Card)
        + handsCards g.players + {g.discard_pile.getLast hne}
        + (g.safe : Multiset Card)
      = handsCards g.players + (g.safe : Multiset Card)
        + (((g.discard_pile.dropLast : List Card) : Multiset Card)
          + {g.discard_pile.getLast hne}) := by abel
    _ = handsCards g.players + (g.safe : Multiset Card)
        + (g.discard_pile : Multiset Card) := by rw [h2]
    _ = 0 + handsCards g.players + (g.discard_pile : Multiset Card)
        + (g.safe : Multiset Card) := by abel

theorem reshuffle_discard_into_deck_conserves (g : Game)
    (shuffled : List Card) :
    totalCards (reshuffle_discard_into_deck g shuffled) = totalCards g := by
  by_cases hd : g.deck = [] ∧ g.discard_pile ≠ []
  · by_cases hp : shuffled.Perm g.discard_pile.dropLast
    · have hred : reshuffle_discard_into_deck g shuffled =
          { g with
              deck := shuffled,
              discard_pile := [g.discard_pile.getLast hd.2] } := by
        simp [reshuffle_discard_into_deck, hd, hp]
      rw [hred]
      exact conserve_reshuffle_core g shuffled
        (Multiset.coe_eq_coe.mpr hp) hd.2 hd.1
    · have hred : reshuffle_discard_into_deck g shuffled =
          { g with
              deck := g.discard_pile.dropLast,
              discard_pile := [g.discard_pile.getLast hd.2] } := by
        simp [reshuffle_discard_into_deck, hd, hp]
      rw [hred]
      exact conserve_reshuffle_core g g.discard_pile.dropLast rfl hd.2 hd.1
  · simp [reshuffle_discard_into_deck, hd]

theorem bottle_attempt_conserves (g : Game) (p : PlayerId) (i : Nat) :
    totalCards (handle_bottle_match_attempt g p i).1 = totalCards g := by
  rcases hh : getHand? g.players p with _ | hand
  · rcases hc : g.bottle_match_context with _ | ctx <;>
      simp [handle_bottle_match_attempt, hh, hc]
  · rcases hc : g.bottle_match_context with _ | ctx
    · simp [handle_bottle_match_attempt, hh, hc]
    · by_cases hphase : g.phase = Phase.bottle_matching_window
      · rcases hw : ctx.fastest_matcher_id with _ | w
        · by_cases hf : p ∈ ctx.failed_matchers
          · simp [handle_bottle_match_attempt, hh, hc, hphase, hw, hf]
          · by_cases hi : i < hand.length
            · by_cases hmatch : hand[i].isBottle = true ∧
                  hand[i].value? = some ctx.discarded_card_value
              · have hred : (handle_bottle_match_attempt g p i).1 =
                    { g with
                        players := updateFirstHand g.players p
                          (fun hd => hd.eraseIdx i),
                        discard_pile := g.discard_pile ++ [hand.get ⟨i, hi⟩],
                        bottle_match_context := none,
                        bottle_match_context_just_ended := true,
                        current_player_id := ctx.triggering_player_id } := by
                  simp [handle_bottle_match_attempt, hh, hc, hphase, hw, hf,
                    hi, hmatch]
                rw [hred]
                show (g.deck : Multiset Card)
                    + handsCards (updateFirstHand g.players p
                        (fun hd => hd.eraseIdx i))
                    + ((g.discard_pile ++ [hand.get ⟨i, hi⟩] : List Card) :
                        Multiset Card)
                    + (g.safe : Multiset Card)
                  = (g.deck : Multiset Card) + handsCards g.players
                    + (g.discard_pile : Multiset Card) + (g.safe : Multiset Card)
                have hk := conserve_match_discard g.players p hand
                  g.discard_pile i hh hi
                calc (g.deck : Multiset Card)
                      + handsCards (updateFirstHand g.players p
                          (fun hd => hd.eraseIdx i))
                      + ((g.discard_pile ++ [hand.get ⟨i, hi⟩] : List Card) :
                          Multiset Card)
                      + (g.safe : Multiset Card)
                    = (g.deck : Multiset Card)
                      + (handsCards (updateFirstHand g.players p
                          (fun hd => hd.eraseIdx i))
                        + ((g.discard_pile ++ [hand.get ⟨i, hi⟩] : List Card) :
                            Multiset Card))
                      + (g.safe : Multiset Card) := by abel
                  _ = (g.deck : Multiset Card)
                      + (handsCards g.players + (g.discard_pile : Multiset Card))
                      + (g.safe : Multiset Card) := by rw [hk]
                  _ = (g.deck : Multiset Card) + handsCards g.players
                      + (g.discard_pile : Multiset Card)
                      + (g.safe : Multiset Card) := by abel
              · by_cases hdk : g.deck = []
                · simp [handle_bottle_match_attempt, hh, hc, hphase, hw, hf,
                    hi, hmatch, hdk, totalCards]
                · have hred : (handle_bottle_match_attempt g p i).1 =
                      { g with
                          deck := g.deck.dropLast,
                          players := updateFirstHand g.players p
                            (fun hd => hd ++ [g.deck.getLast hdk]),
                          bottle_match_context := some
                            { ctx with
                                failed_matchers :=
                                  ctx.failed_matchers ++ [p] } } := by
                    simp [handle_bottle_match_attempt, hh, hc, hphase, hw, hf,
                      hi, hmatch, hdk]
                  rw [hred]
                  show ((g.deck.dropLast : List Card) : Multiset Card)
                      + handsCards (updateFirstHand g.players p
                          (fun hd => hd ++ [g.deck.getLast hdk]))
                      + (g.discard_pile : Multiset Card)
                      + (g.safe : Multiset Card)
                    = (g.deck : Multiset Card) + handsCards g.players
                      + (g.discard_pile : Multiset Card)
                      + (g.safe : Multiset Card)
                  exact sum4_congr
                    (conserve_draw_to_hand g.deck g.players p hand hh hdk)
            · simp [handle_bottle_match_attempt, hh, hc, hphase, hw, hf, hi]
        · simp [handle_bottle_match_attempt, hh, hc, hphase, hw]
      · simp [handle_bottle_match_attempt, hh, hc, hphase]

/-- C5: Over every sequence of legal in-round operations — card
replacement from the deck or the discard pile, bottle-match attempts
(success, failure with penalty draw, or rejection), Snitch gives, Driver
discards with non-bottle return and penalty draws, Safecracker exchange,
and the empty-deck reshuffle — the multiset of all cards across deck +
hands + discard pile + safe is unchanged: the total count is invariant
and no card is duplicated or lost, each operation only relocates cards
between these containers. -/
theorem card_conservation (ops : List Op) (g : Game) :
    totalCards (applyOps ops g) = totalCards g := by
  induction ops generalizing g with
  | nil => rfl
  | cons op rest ih =>
    have hstep : applyOps (op :: rest) g = applyOps rest (op.apply g) := rfl
    rw [hstep, ih]
    cases op with
    | replaceFromDeck pid idx => exact replace_from_deck_conserves g pid idx
    | replaceFromDiscard pid idx =>
        exact replace_from_discard_conserves g pid idx
    | bottleAttempt pid idx => exact bottle_attempt_conserves g pid idx
    | snitchGive targets => exact snitch_give_loop_conserves targets g
    | driverDiscard pid indices shuffled =>
        exact execute_the_driver_ability_conserves g pid indices shuffled
    | safecrackerExchange pid sIdx hIdx =>
        exact execute_safecracker_exchange_conserves g pid sIdx hIdx
    | reshuffleFromDiscard shuffled =>
        exact reshuffle_discard_into_deck_conserves g shuffled

end OmertaBot
